import Mathlib

/-!
# Verification of the MockMaster progress tree and verification-code flow

Shallow embedding of `src/backend/src/progress/progressTree.js` and of the
verification-code management in the `UserModel` (storeVerificationCode /
verifyCode).

Modelling conventions:
* JS objects used as string-keyed maps are embedded as insertion-ordered
  association lists `List (String × α)`; `obj[k] = v` updates the first
  occurrence of `k` in place or appends a fresh key at the end (`alSet`).
* ISO date strings are embedded as their epoch-millisecond value (`Int`);
  `new Date().toISOString()` / `Date.now()` become an explicit `now : Int`
  parameter.  A possibly-absent (JS falsy) date is `Option Int`.
* JS booleans/truthiness: a string is falsy iff empty, `null`/`undefined`
  become `none`.
-/

namespace MockMaster

/-- `obj[k] = v` on a JS object viewed as an association list: replace the
first binding of `k`, or append `(k, v)` if `k` is unbound. -/
def alSet {α : Type} (k : String) (v : α) : List (String × α) → List (String × α)
  | [] => [(k, v)]
  | (k₀, v₀) :: t => if k₀ = k then (k, v) :: t else (k₀, v₀) :: alSet k v t

/-- `PAPER1_TOPICS` from progressTree.js: the fixed set of topic slugs
classified as Paper 1. -/
def PAPER1_TOPICS : List String :=
  [ "algebra", "algebraic", "polynomial", "quadratic",
    "complex", "complex-numbers", "imaginary",
    "differentiation", "derivative", "diff",
    "integration", "integral", "integrate",
    "sequences", "sequence", "series", "arithmetic", "geometric",
    "sequences-and-series", "sequences-series",
    "financial", "financial-maths", "compound-interest", "annuity",
    "induction", "mathematical-induction", "proof-by-induction" ]

/-- `normalizeTopicFromQuestionId`: `questionId.split('-')[0]`, i.e. the
characters of the id before the first `-` separator; `"unknown"` for a falsy
(empty) id. -/
def normalizeTopicFromQuestionId (questionId : String) : String :=
  if questionId = "" then "unknown"
  else String.mk (questionId.data.takeWhile (fun c => !(c == '-')))

/-- JS `String.prototype.toLowerCase`, character by character. -/
def jsToLowerCase (s : String) : String :=
  String.mk (s.data.map Char.toLower)

/-- `classifyPaper`: `"paper1"` if the lowercased slug is a member of
`PAPER1_TOPICS`, else `"paper2"`. -/
def classifyPaper (topicSlug : String) : String :=
  if PAPER1_TOPICS.contains (jsToLowerCase topicSlug) then "paper1" else "paper2"

/-- Metadata argument of `addAttempt` (`{timeTakenSeconds?, notes?, completedAt?}`).
Absent/falsy fields are `none` / `""`. -/
structure Meta where
  completedAt : Option Int := none
  timeTakenSeconds : Option Int := none
  notes : String := ""
deriving Repr, DecidableEq

/-- A leaf item stored in the tree: `{completedAt, timeTakenSeconds, notes}`. -/
structure Item where
  completedAt : Int
  timeTakenSeconds : Option Int
  notes : String
deriving Repr, DecidableEq

/-- The `items` map of one topic node. -/
abbrev TopicNode := List (String × Item)

/-- The `topics` map of one paper node. -/
abbrev TopicsMap := List (String × TopicNode)

/-- The cached `totals` object: `{all, paper1, paper2, topics}`. -/
structure Totals where
  all : Nat
  paper1 : Nat
  paper2 : Nat
  topics : List (String × Nat)
deriving Repr, DecidableEq

/-- The `tree` field: `{paper1: {topics}, paper2: {topics}}`. -/
structure TreeData where
  paper1 : TopicsMap
  paper2 : TopicsMap
deriving Repr, DecidableEq

/-- A `ProgressTree` instance: `{version, tree, totals}`. -/
structure ProgressTree where
  version : Nat
  tree : TreeData
  totals : Totals
deriving Repr, DecidableEq

/-- `this.tree[paper].topics` for `paper ∈ {"paper1", "paper2"}`. -/
def TreeData.topicsOf (td : TreeData) (paper : String) : TopicsMap :=
  if paper = "paper1" then td.paper1 else td.paper2

/-- `this.tree[paper].topics = m`. -/
def TreeData.setTopics (td : TreeData) (paper : String) (m : TopicsMap) : TreeData :=
  if paper = "paper1" then { td with paper1 := m } else { td with paper2 := m }

/-- `this.totals[paper] += 1`. -/
def Totals.bumpPaper (tot : Totals) (paper : String) : Totals :=
  if paper = "paper1" then { tot with paper1 := tot.paper1 + 1 }
  else { tot with paper2 := tot.paper2 + 1 }

/-- Serialized form `{version, tree, totals}` produced by `toJSON` and accepted
by the constructor. -/
structure Serialized where
  version : Nat
  tree : TreeData
  totals : Totals
deriving Repr, DecidableEq

/-- The `ProgressTree` constructor: keeps the structure of valid restore data
(`data && data.tree && data.totals`), else initializes an empty tree.  A falsy
or non-object argument is `none`; `data.version || 1` maps version `0`
(JS falsy) to `1`. -/
def ProgressTree.ofData : Option Serialized → ProgressTree
  | some d =>
      { version := if d.version = 0 then 1 else d.version,
        tree := d.tree, totals := d.totals }
  | none =>
      { version := 1,
        tree := { paper1 := [], paper2 := [] },
        totals := { all := 0, paper1 := 0, paper2 := 0, topics := [] } }

/-- `new ProgressTree()` with no argument. -/
def ProgressTree.empty : ProgressTree := ProgressTree.ofData none

/-- `has(questionId)`: derive topic and paper from the id and test membership
of the id in that topic node's items. -/
def ProgressTree.has (t : ProgressTree) (questionId : String) : Bool :=
  let topic := normalizeTopicFromQuestionId questionId
  let paper := classifyPaper topic
  match (t.tree.topicsOf paper).lookup topic with
  | some node => (node.lookup questionId).isSome
  | none => false

/-- `if (!this.tree[paper].topics[topic]) this.tree[paper].topics[topic] = {items:{}}`. -/
def ensureNode (topic : String) (m : TopicsMap) : TopicsMap :=
  if (m.lookup topic).isSome then m else alSet topic [] m

/-- The fresh item written on a new completion:
`{completedAt: meta.completedAt || now, timeTakenSeconds: meta.timeTakenSeconds ?? null,
notes: meta.notes || ''}`. -/
def newItem (now : Int) (meta : Meta) : Item :=
  { completedAt := meta.completedAt.getD now,
    timeTakenSeconds := meta.timeTakenSeconds,
    notes := meta.notes }

/-- The non-destructive merge applied to an existing item: each of
`timeTakenSeconds` (if non-null), `notes` (if truthy) and `completedAt`
(if truthy) is overwritten from `meta`. -/
def mergeItem (existing : Item) (meta : Meta) : Item :=
  let e₁ := if meta.timeTakenSeconds.isSome
            then { existing with timeTakenSeconds := meta.timeTakenSeconds }
            else existing
  let e₂ := if meta.notes ≠ "" then { e₁ with notes := meta.notes } else e₁
  match meta.completedAt with
  | some c => { e₂ with completedAt := c }
  | none => e₂

/-- The totals update of a new completion: `totals.all += 1`,
`totals[paper] += 1`, `totals.topics[topic] = (totals.topics[topic] || 0) + 1`. -/
def Totals.bumpFor (tot : Totals) (paper topic : String) : Totals :=
  { tot.bumpPaper paper with
      all := tot.all + 1,
      topics := alSet topic ((tot.topics.lookup topic).getD 0 + 1) tot.topics }

/-- `addAttempt(questionId, meta)`, returning the JS boolean result together
with the mutated tree.  `now` is the clock value used for the
`new Date().toISOString()` default of `completedAt`. -/
def ProgressTree.addAttempt (t : ProgressTree) (now : Int) (questionId : String)
    (meta : Meta) : Bool × ProgressTree :=
  if questionId = "" then (false, t)
  else
    let topic := normalizeTopicFromQuestionId questionId
    let paper := classifyPaper topic
    let m₁ := ensureNode topic (t.tree.topicsOf paper)
    let td := t.tree.setTopics paper m₁
    let topicNode := (m₁.lookup topic).getD []
    match topicNode.lookup questionId with
    | none =>
        -- New completion
        let td' := td.setTopics paper (alSet topic (alSet questionId (newItem now meta) topicNode) m₁)
        (true, { t with tree := td', totals := t.totals.bumpFor paper topic })
    | some existing =>
        -- Update existing meta (non-destructive)
        let td' := td.setTopics paper (alSet topic (alSet questionId (mergeItem existing meta) topicNode) m₁)
        (false, { t with tree := td' })

/-- `topicCount(topic)`. -/
def ProgressTree.topicCount (t : ProgressTree) (topic : String) : Nat :=
  (t.totals.topics.lookup topic).getD 0

/-- `toJSON()`. -/
def ProgressTree.toJSON (t : ProgressTree) : Serialized :=
  { version := t.version, tree := t.tree, totals := t.totals }

/-- `restoreProgressTree(raw)`: construct from a truthy object, fall back to a
fresh empty tree otherwise. -/
def restoreProgressTree (raw : Option Serialized) : ProgressTree :=
  match raw with
  | some s => ProgressTree.ofData (some s)
  | none => ProgressTree.ofData none

/-- An attempt record as consumed by `fromAttempts` (duck-typed fields read by
the JS code; absent fields are `none` / `""`). -/
structure Attempt where
  questionId : String
  completedAt : Option Int := none
  timestamp : Option Int := none
  lastUpdatedAt : Option Int := none
  timeTakenSeconds : Option Int := none
  timeTaken : Option Int := none
  notes : String := ""
deriving Repr, DecidableEq

/-- The metadata object that `fromAttempts` builds for each replayed attempt:
`{ timeTakenSeconds: a.timeTakenSeconds ?? a.timeTaken ?? null, notes: a.notes || '',
completedAt: a.completedAt || a.timestamp || a.lastUpdatedAt }`. -/
def Attempt.toMeta (a : Attempt) : Meta :=
  { timeTakenSeconds := a.timeTakenSeconds.or a.timeTaken,
    notes := a.notes,
    completedAt := (a.completedAt.or a.timestamp).or a.lastUpdatedAt }

/-- `ProgressTree.fromAttempts(attempts)`: replay every attempt through
`addAttempt` on a fresh tree, in input order. -/
def ProgressTree.fromAttempts (now : Int) (attempts : List Attempt) : ProgressTree :=
  attempts.foldl
    (fun pt a => (pt.addAttempt now a.questionId a.toMeta).2)
    ProgressTree.empty

/-- A flattened leaf record pushed by `toAttemptsArray`. -/
structure FlatRecord where
  questionId : String
  completedAt : Int
  timeTakenSeconds : Option Int
  notes : String
  topic : String
  paper : String
deriving Repr, DecidableEq

/-- The per-paper flattening loop of `toAttemptsArray` (topics and items in
insertion order). -/
def flattenTopics (paper : String) (m : TopicsMap) : List FlatRecord :=
  m.flatMap (fun tn =>
    tn.2.map (fun qi =>
      { questionId := qi.1,
        completedAt := qi.2.completedAt,
        timeTakenSeconds := qi.2.timeTakenSeconds,
        notes := qi.2.notes,
        topic := tn.1,
        paper := paper }))

/-- `toAttemptsArray()`: flatten paper1 then paper2, then stable-sort newest
first by `completedAt` (`new Date(x.completedAt||0).getTime()` over
epoch-millisecond values is the value itself). -/
def ProgressTree.toAttemptsArray (t : ProgressTree) : List FlatRecord :=
  let out := flattenTopics "paper1" t.tree.paper1 ++ flattenTopics "paper2" t.tree.paper2
  out.mergeSort (fun a b => b.completedAt ≤ a.completedAt)

/-- Re-reading a flattened record as a `fromAttempts` input: the JS objects
carry exactly these fields; `timestamp`, `lastUpdatedAt` and `timeTaken` are
absent (`undefined`), and `completedAt` is an always-truthy date string. -/
def FlatRecord.asAttempt (r : FlatRecord) : Attempt :=
  { questionId := r.questionId,
    completedAt := some r.completedAt,
    timestamp := none,
    lastUpdatedAt := none,
    timeTakenSeconds := r.timeTakenSeconds,
    timeTaken := none,
    notes := r.notes }

/-! ## Verification-code management (`UserModel`) -/

/-- `parseInt(process.env.CODE_EXPIRY_MINUTES || '15')` (default). -/
def CODE_EXPIRY_MINUTES : Int := 15

/-- `parseInt(process.env.CODE_COOLDOWN_SECONDS || '90')` (default). -/
def CODE_COOLDOWN_SECONDS : Int := 90

/-- `parseInt(process.env.MAX_CODE_ATTEMPTS || '5')` (default). -/
def MAX_CODE_ATTEMPTS : Nat := 5

/-- An AES ciphertext produced by `encryptEmail`.  CryptoJS's
`AES.encrypt(plaintext, passphrase)` draws a fresh random 8-byte salt on every
call, so two ciphertext strings coincide exactly when both the per-call salt
and the plaintext (and the fixed key) coincide — in particular, encrypting the
same email in two different calls yields two different strings.  The opaque
ciphertext string is therefore modelled as a (salt, plaintext) pair, which has
exactly this equality. -/
structure Cipher where
  salt : Nat
  plaintext : String
deriving Repr, DecidableEq

/-- `encryptEmail`: AES encryption of the lowercased email under
`ENCRYPTION_KEY`; `salt` is the random salt CryptoJS draws for this one call
(each call to `encryptEmail` in the source receives a fresh value). -/
def encryptEmail (salt : Nat) (email : String) : Cipher :=
  { salt := salt, plaintext := jsToLowerCase email }

/-- `hashCode(code, type)`: HMAC-SHA256 hex digest of `type:code` keyed by
`ENCRYPTION_KEY`, modelled as an injective tagged encoding.  Real digests are
64 hex characters — in particular never 6 characters long, which the
legacy-raw-code checks (`code.length === 6`) rely on; the model's encoding is
likewise always longer than 6 characters. -/
def hashCode (code ctype : String) : String :=
  "hmac256(" ++ ctype ++ ":" ++ code ++ ")"

/-- One element of `db.verificationCodes`; `email` holds the ciphertext
written by the `storeVerificationCode` call that created the entry. -/
structure VerificationEntry where
  id : String
  email : Cipher
  code : String
  type : String
  createdAt : Int
  expiresAt : Int
  used : Bool
  attempts : Nat
  maxAttempts : Nat
deriving Repr, DecidableEq

/-- The slice of the JSON database relevant to code verification. -/
structure VDb where
  verificationCodes : List VerificationEntry
deriving Repr, DecidableEq

/-- Result of `storeVerificationCode`: the written database, the stored entry,
and the raw code returned for emailing (`{...verificationEntry, raw: finalCode}`). -/
structure StoreResult where
  db : VDb
  entry : VerificationEntry
  raw : String
deriving Repr, DecidableEq

/-- `storeVerificationCode(email, code, type)`.  `now` is `Date.now()`,
`newId` the fresh random UUID from `generateUserId()`, and `salt` the fresh
random salt drawn by this call's single `this.encryptEmail(email)` — the
resulting ciphertext is shared by the cooldown `find`, the pair-removal
`filter` and the stored entry of this call, but differs from the ciphertexts
of every other call. -/
def storeVerificationCode (db : VDb) (now : Int) (newId : String) (salt : Nat)
    (email code ctype : String) : StoreResult :=
  let encryptedEmail := encryptEmail salt email
  -- Remove expired codes first
  let codes := db.verificationCodes.filter (fun vc => decide (now < vc.expiresAt))
  -- Check for recent existing code (cooldown reuse)
  let existing := codes.find? (fun vc =>
    vc.email == encryptedEmail && vc.type == ctype && !vc.used &&
      decide (now - vc.createdAt < CODE_COOLDOWN_SECONDS * 1000))
  let finalCode :=
    match existing with
    | some e =>
        -- Reuse original code only when a raw legacy 6-char code is stored;
        -- a hashed code cannot be recovered, so the new code is used instead.
        if e.code ≠ "" ∧ e.code.length = 6 then e.code else code
    | none => code
  let hashed := hashCode finalCode ctype
  -- Remove other codes of same email+type
  let codes₂ := codes.filter (fun vc =>
    !(vc.email == encryptedEmail && vc.type == ctype))
  let entry : VerificationEntry :=
    { id := newId,
      email := encryptedEmail,
      code := hashed,
      type := ctype,
      createdAt := now,
      expiresAt := now + CODE_EXPIRY_MINUTES * 60 * 1000,
      used := false,
      attempts := 0,
      maxAttempts := MAX_CODE_ATTEMPTS }
  { db := { verificationCodes := codes₂ ++ [entry] },
    entry := entry,
    raw := finalCode }

/-- Replace the first list element satisfying `p` (the JS code mutates, through
the reference returned by `find`, the first matching array element in place). -/
def replaceFirst {α : Type} (p : α → Bool) (v : α) : List α → List α
  | [] => []
  | x :: xs => if p x then v :: xs else x :: replaceFirst p v xs

/-- The eligibility test of `verifyCode`'s `find`: same ciphertext as this
call's freshly encrypted email, same type, not used, not expired. -/
def eligibleFor (encryptedEmail : Cipher) (ctype : String) (now : Int)
    (vc : VerificationEntry) : Bool :=
  vc.email == encryptedEmail && vc.type == ctype && !vc.used &&
    decide (now < vc.expiresAt)

/-- `verifyCode(email, code, type)`: returns the written database and the
boolean verification result.  `salt` is the fresh random salt of this call's
`this.encryptEmail(email)`. -/
def verifyCode (db : VDb) (now : Int) (salt : Nat)
    (email code ctype : String) : VDb × Bool :=
  let encryptedEmail := encryptEmail salt email
  let hashedAttempt := hashCode code ctype
  match db.verificationCodes.find? (eligibleFor encryptedEmail ctype now) with
  | none => (db, false)
  | some entry =>
      -- Backward compatibility: accept legacy plain code OR new hashed
      let matched := entry.code == hashedAttempt ||
        (entry.code.length == 6 && entry.code == code)
      if matched then
        ({ verificationCodes :=
             replaceFirst (eligibleFor encryptedEmail ctype now)
               { entry with used := true } db.verificationCodes },
         true)
      else
        let attempts' := entry.attempts + 1
        let maxA := if entry.maxAttempts = 0 then 5 else entry.maxAttempts
        let entry' :=
          { entry with
              attempts := attempts',
              used := if attempts' ≥ maxA then true else entry.used }
        ({ verificationCodes :=
             replaceFirst (eligibleFor encryptedEmail ctype now)
               entry' db.verificationCodes },
         false)

/-! ## Association-list lemmas -/

section AlistLemmas

variable {α : Type} {k k' : String} {v : α} {l : List (String × α)}

theorem lookup_alSet_self (k : String) (v : α) (l : List (String × α)) :
    (alSet k v l).lookup k = some v := by
  induction l with
  | nil => simp [alSet, List.lookup]
  | cons h t ih =>
      obtain ⟨k₀, v₀⟩ := h
      by_cases hk : k₀ = k
      · subst hk; simp [alSet, List.lookup]
      · have hb : (k == k₀) = false := beq_eq_false_iff_ne.mpr (Ne.symm hk)
        simp [alSet, hk, List.lookup, hb, ih]

theorem lookup_alSet_ne (v : α) (l : List (String × α)) (h : k' ≠ k) :
    (alSet k v l).lookup k' = l.lookup k' := by
  have hb : (k' == k) = false := beq_eq_false_iff_ne.mpr h
  induction l with
  | nil => simp [alSet, List.lookup, hb]
  | cons hd t ih =>
      obtain ⟨k₀, v₀⟩ := hd
      by_cases hk : k₀ = k
      · subst hk; simp [alSet, List.lookup, hb]
      · simp [alSet, hk, List.lookup, ih]

theorem length_alSet_of_lookup_none (v : α) :
    l.lookup k = none → (alSet k v l).length = l.length + 1 := by
  induction l with
  | nil => intro _; simp [alSet]
  | cons hd t ih =>
      intro h
      obtain ⟨k₀, v₀⟩ := hd
      by_cases hk : k₀ = k
      · subst hk; simp [List.lookup] at h
      · have hb : (k == k₀) = false := beq_eq_false_iff_ne.mpr (Ne.symm hk)
        simp only [List.lookup, hb] at h
        simp [alSet, hk, ih h]

theorem length_alSet_of_lookup_isSome (v : α) :
    (l.lookup k).isSome → (alSet k v l).length = l.length := by
  induction l with
  | nil => intro h; simp [List.lookup] at h
  | cons hd t ih =>
      intro h
      obtain ⟨k₀, v₀⟩ := hd
      by_cases hk : k₀ = k
      · subst hk; simp [alSet]
      · have hb : (k == k₀) = false := beq_eq_false_iff_ne.mpr (Ne.symm hk)
        simp only [List.lookup, hb] at h
        simp [alSet, hk, ih h]

theorem mem_alSet {x : String × α} :
    x ∈ alSet k v l → x = (k, v) ∨ x ∈ l := by
  induction l with
  | nil => intro h; simpa [alSet] using h
  | cons hd t ih =>
      intro h
      obtain ⟨k₀, v₀⟩ := hd
      by_cases hk : k₀ = k
      · subst hk
        simp only [alSet, if_pos rfl] at h
        rcases List.mem_cons.mp h with h' | h'
        · exact Or.inl h'
        · exact Or.inr (List.mem_cons_of_mem _ h')
      · simp only [alSet, if_neg hk] at h
        rcases List.mem_cons.mp h with h' | h'
        · exact Or.inr (by simp [h'])
        · rcases ih h' with h'' | h''
          · exact Or.inl h''
          · exact Or.inr (List.mem_cons_of_mem _ h'')

theorem map_fst_alSet_of_isSome (v : α) :
    (l.lookup k).isSome → (alSet k v l).map Prod.fst = l.map Prod.fst := by
  induction l with
  | nil => intro h; simp [List.lookup] at h
  | cons hd t ih =>
      intro h
      obtain ⟨k₀, v₀⟩ := hd
      by_cases hk : k₀ = k
      · subst hk; simp [alSet]
      · have hb : (k == k₀) = false := beq_eq_false_iff_ne.mpr (Ne.symm hk)
        simp only [List.lookup, hb] at h
        simp [alSet, hk, ih h]

theorem map_fst_alSet_of_none (v : α) :
    l.lookup k = none → (alSet k v l).map Prod.fst = l.map Prod.fst ++ [k] := by
  induction l with
  | nil => intro _; simp [alSet]
  | cons hd t ih =>
      intro h
      obtain ⟨k₀, v₀⟩ := hd
      by_cases hk : k₀ = k
      · subst hk; simp [List.lookup] at h
      · have hb : (k == k₀) = false := beq_eq_false_iff_ne.mpr (Ne.symm hk)
        simp only [List.lookup, hb] at h
        simp [alSet, hk, ih h]

theorem lookup_isSome_iff_mem_keys :
    (l.lookup k).isSome ↔ k ∈ l.map Prod.fst := by
  induction l with
  | nil => simp [List.lookup]
  | cons hd t ih =>
      obtain ⟨k₀, v₀⟩ := hd
      by_cases hk : k = k₀
      · subst hk; simp [List.lookup]
      · have hb : (k == k₀) = false := beq_eq_false_iff_ne.mpr hk
        simp [List.lookup, hb, hk, ih]

end AlistLemmas

/-! ## Topics-map lemmas -/

/-- Total number of leaf items of a topics map. -/
def sumLens (m : TopicsMap) : Nat := (m.map (fun p => p.2.length)).sum

/-- Number of leaf items under one topic key of a topics map. -/
def countTopic (m : TopicsMap) (s : String) : Nat := ((m.lookup s).getD []).length

theorem sumLens_alSet (k : String) (node : TopicNode) (m : TopicsMap) :
    sumLens (alSet k node m) + ((m.lookup k).getD []).length
      = sumLens m + node.length := by
  induction m with
  | nil => simp [alSet, sumLens, List.lookup]
  | cons hd t ih =>
      obtain ⟨k₀, v₀⟩ := hd
      by_cases hk : k₀ = k
      · subst hk; simp [alSet, sumLens, List.lookup]; omega
      · have : ¬(k == k₀) = true := by simpa [beq_iff_eq] using Ne.symm hk
        simp only [alSet, if_neg hk, sumLens, List.map_cons, List.sum_cons,
          List.lookup, this, Bool.false_eq_true, if_false] at *
        omega

theorem lookup_ensureNode_self (k : String) (m : TopicsMap) :
    (ensureNode k m).lookup k = some ((m.lookup k).getD []) := by
  unfold ensureNode
  rcases h : m.lookup k with _ | node
  · simp [h, lookup_alSet_self]
  · simp [h]

theorem lookup_ensureNode_ne (k : String) (m : TopicsMap) (h : k' ≠ k) :
    (ensureNode k m).lookup k' = m.lookup k' := by
  unfold ensureNode
  split
  · rfl
  · exact lookup_alSet_ne _ _ h

theorem alSet_alSet {α : Type} (k : String) (v w : α) (l : List (String × α)) :
    alSet k v (alSet k w l) = alSet k v l := by
  induction l with
  | nil => simp [alSet]
  | cons hd t ih =>
      obtain ⟨k₀, v₀⟩ := hd
      by_cases hk : k₀ = k
      · subst hk; simp [alSet]
      · simp [alSet, hk, ih]

theorem alSet_ensureNode (k : String) (v : TopicNode) (m : TopicsMap) :
    alSet k v (ensureNode k m) = alSet k v m := by
  unfold ensureNode
  split
  · rfl
  · exact alSet_alSet k v [] m

/-! ## Structural lemmas about `addAttempt` -/

theorem classifyPaper_cases (s : String) :
    classifyPaper s = "paper1" ∨ classifyPaper s = "paper2" := by
  unfold classifyPaper
  split
  · exact Or.inl rfl
  · exact Or.inr rfl

theorem paper1_ne_paper2 : ("paper1" : String) ≠ "paper2" := by decide

theorem setTopics_setTopics (td : TreeData) (p : String) (m m' : TopicsMap) :
    (td.setTopics p m).setTopics p m' = td.setTopics p m' := by
  by_cases hp : p = "paper1" <;> simp [TreeData.setTopics, hp]

/-- The topic node that `has`/`addAttempt` inspect for a question id. -/
def ProgressTree.nodeOf (t : ProgressTree) (q : String) : TopicNode :=
  ((t.tree.topicsOf (classifyPaper (normalizeTopicFromQuestionId q))).lookup
    (normalizeTopicFromQuestionId q)).getD []

theorem has_eq_nodeOf (t : ProgressTree) (q : String) :
    t.has q = ((t.nodeOf q).lookup q).isSome := by
  unfold ProgressTree.has ProgressTree.nodeOf
  rcases h : (t.tree.topicsOf (classifyPaper (normalizeTopicFromQuestionId q))).lookup
      (normalizeTopicFromQuestionId q) with _ | node
  · simp [h, List.lookup]
  · simp [h]

/-- Branch normal form of `addAttempt` for a truthy question id. -/
theorem addAttempt_eq (t : ProgressTree) (now : Int) (q : String) (meta : Meta)
    (hq : q ≠ "") :
    t.addAttempt now q meta =
      (match (t.nodeOf q).lookup q with
       | none =>
           (true,
            { t with
                tree := t.tree.setTopics (classifyPaper (normalizeTopicFromQuestionId q))
                  (alSet (normalizeTopicFromQuestionId q)
                    (alSet q (newItem now meta) (t.nodeOf q))
                    (t.tree.topicsOf (classifyPaper (normalizeTopicFromQuestionId q)))),
                totals := t.totals.bumpFor (classifyPaper (normalizeTopicFromQuestionId q))
                  (normalizeTopicFromQuestionId q) })
       | some existing =>
           (false,
            { t with
                tree := t.tree.setTopics (classifyPaper (normalizeTopicFromQuestionId q))
                  (alSet (normalizeTopicFromQuestionId q)
                    (alSet q (mergeItem existing meta) (t.nodeOf q))
                    (t.tree.topicsOf (classifyPaper (normalizeTopicFromQuestionId q)))) })) := by
  unfold ProgressTree.addAttempt ProgressTree.nodeOf
  rw [if_neg hq]
  simp only [lookup_ensureNode_self, Option.getD_some, alSet_ensureNode, setTopics_setTopics]

theorem topicsOf_setTopics (td : TreeData) (p p' : String) (m : TopicsMap)
    (hp : p = "paper1" ∨ p = "paper2") (hp' : p' = "paper1" ∨ p' = "paper2") :
    (td.setTopics p m).topicsOf p' = if p' = p then m else td.topicsOf p' := by
  rcases hp with h | h <;> rcases hp' with h' | h' <;> subst h <;> subst h' <;>
    simp [TreeData.setTopics, TreeData.topicsOf]

theorem bumpFor_all (tot : Totals) (p s : String) :
    (tot.bumpFor p s).all = tot.all + 1 := by
  unfold Totals.bumpFor Totals.bumpPaper
  by_cases hp : p = "paper1" <;> simp [hp]

theorem bumpFor_paper1 (tot : Totals) (p s : String) :
    (tot.bumpFor p s).paper1 = tot.paper1 + (if p = "paper1" then 1 else 0) := by
  unfold Totals.bumpFor Totals.bumpPaper
  by_cases hp : p = "paper1" <;> simp [hp]

theorem bumpFor_paper2 (tot : Totals) (p s : String) :
    (tot.bumpFor p s).paper2 = tot.paper2 + (if p = "paper1" then 0 else 1) := by
  unfold Totals.bumpFor Totals.bumpPaper
  by_cases hp : p = "paper1" <;> simp [hp]

theorem bumpFor_topics (tot : Totals) (p s s' : String) :
    ((tot.bumpFor p s).topics.lookup s').getD 0
      = (tot.topics.lookup s').getD 0 + (if s' = s then 1 else 0) := by
  have htop : (tot.bumpFor p s).topics
      = alSet s ((tot.topics.lookup s).getD 0 + 1) tot.topics := by
    unfold Totals.bumpFor Totals.bumpPaper
    by_cases hp : p = "paper1" <;> simp [hp]
  rw [htop]
  by_cases hs : s' = s
  · subst hs; rw [lookup_alSet_self]; simp
  · rw [lookup_alSet_ne _ _ hs]; simp [hs]

theorem x_eq_q_topic {x q : String} (h : x = q) :
    normalizeTopicFromQuestionId x = normalizeTopicFromQuestionId q := by rw [h]

/-- Looking up `x` in its node after the tree rewrite that `addAttempt`
performs for question id `q` and item `item`. -/
theorem nodeOf_lookup_after (t t' : ProgressTree) (item : Item) (q x : String)
    (ht : t'.tree = t.tree.setTopics (classifyPaper (normalizeTopicFromQuestionId q))
        (alSet (normalizeTopicFromQuestionId q) (alSet q item (t.nodeOf q))
          (t.tree.topicsOf (classifyPaper (normalizeTopicFromQuestionId q))))) :
    (t'.nodeOf x).lookup x = if x = q then some item else (t.nodeOf x).lookup x := by
  unfold ProgressTree.nodeOf
  rw [ht, topicsOf_setTopics _ _ _ _
    (classifyPaper_cases _) (classifyPaper_cases _)]
  by_cases hP : classifyPaper (normalizeTopicFromQuestionId x)
      = classifyPaper (normalizeTopicFromQuestionId q)
  · rw [if_pos hP]
    by_cases hT : normalizeTopicFromQuestionId x = normalizeTopicFromQuestionId q
    · rw [hT, lookup_alSet_self, Option.getD_some]
      by_cases hxq : x = q
      · subst hxq; rw [lookup_alSet_self, if_pos rfl]
      · rw [lookup_alSet_ne _ _ hxq, if_neg hxq]; rfl
    · rw [lookup_alSet_ne _ _ hT]
      have hxq : x ≠ q := fun hc => hT (x_eq_q_topic hc)
      rw [if_neg hxq, hP]
  · rw [if_neg hP]
    have hxq : x ≠ q := fun hc => hP (by rw [x_eq_q_topic hc])
    rw [if_neg hxq]

/-- After `addAttempt q`, `has x` holds exactly when it held before or `x = q`:
adding never removes ids, and both branches leave an item stored at `q`. -/
theorem has_addAttempt (t : ProgressTree) (now : Int) (q : String) (meta : Meta)
    (x : String) (hq : q ≠ "") :
    ((t.addAttempt now q meta).2).has x = (t.has x || x == q) := by
  rw [addAttempt_eq t now q meta hq]
  rcases hc : (t.nodeOf q).lookup q with _ | e
  · simp only
    rw [has_eq_nodeOf, has_eq_nodeOf,
      nodeOf_lookup_after t _ (newItem now meta) q x rfl]
    by_cases hxq : x = q
    · subst hxq; simp [hc]
    · have hb : (x == q) = false := beq_eq_false_iff_ne.mpr hxq
      simp [hxq, hb]
  · simp only
    rw [has_eq_nodeOf, has_eq_nodeOf,
      nodeOf_lookup_after t _ (mergeItem e meta) q x rfl]
    by_cases hxq : x = q
    · subst hxq; simp [hc]
    · have hb : (x == q) = false := beq_eq_false_iff_ne.mpr hxq
      simp [hxq, hb]

theorem addAttempt_version (t : ProgressTree) (now : Int) (q : String) (meta : Meta) :
    ((t.addAttempt now q meta).2).version = t.version := by
  by_cases hq : q = ""
  · simp [ProgressTree.addAttempt, hq]
  · rw [addAttempt_eq t now q meta hq]
    rcases hc : (t.nodeOf q).lookup q with _ | e <;> rfl

theorem not_has_lookup_none (t : ProgressTree) (q : String) (h : t.has q = false) :
    (t.nodeOf q).lookup q = none := by
  rw [has_eq_nodeOf] at h
  rcases hc : (t.nodeOf q).lookup q with _ | e
  · rfl
  · rw [hc] at h; simp at h

/-- Full normal form of `addAttempt` on a truthy id that is not yet present:
the new branch is taken. -/
theorem addAttempt_of_not_has (t : ProgressTree) (now : Int) (q : String) (meta : Meta)
    (hq : q ≠ "") (h : t.has q = false) :
    t.addAttempt now q meta =
      (true,
       { t with
           tree := t.tree.setTopics (classifyPaper (normalizeTopicFromQuestionId q))
             (alSet (normalizeTopicFromQuestionId q)
               (alSet q (newItem now meta) (t.nodeOf q))
               (t.tree.topicsOf (classifyPaper (normalizeTopicFromQuestionId q)))),
           totals := t.totals.bumpFor (classifyPaper (normalizeTopicFromQuestionId q))
             (normalizeTopicFromQuestionId q) }) := by
  rw [addAttempt_eq t now q meta hq, not_has_lookup_none t q h]

theorem has_lookup_some (t : ProgressTree) (q : String) (h : t.has q = true) :
    ∃ e, (t.nodeOf q).lookup q = some e := by
  rw [has_eq_nodeOf] at h
  rcases hc : (t.nodeOf q).lookup q with _ | e
  · rw [hc] at h; simp at h
  · exact ⟨e, rfl⟩

/-- Normal form of `addAttempt` on an id that is already present: the merge
branch is taken, totals are untouched. -/
theorem addAttempt_of_has (t : ProgressTree) (now : Int) (q : String) (meta : Meta)
    (e : Item) (hc : (t.nodeOf q).lookup q = some e) (hq : q ≠ "") :
    t.addAttempt now q meta =
      (false,
       { t with
           tree := t.tree.setTopics (classifyPaper (normalizeTopicFromQuestionId q))
             (alSet (normalizeTopicFromQuestionId q)
               (alSet q (mergeItem e meta) (t.nodeOf q))
               (t.tree.topicsOf (classifyPaper (normalizeTopicFromQuestionId q)))) }) := by
  rw [addAttempt_eq t now q meta hq, hc]

/-! ## Helper views and facts -/

/-- Replay a list of `(now, questionId, meta)` calls through `addAttempt`. -/
def applyOps (ops : List (Int × String × Meta)) (t : ProgressTree) : ProgressTree :=
  ops.foldl (fun acc op => (acc.addAttempt op.1 op.2.1 op.2.2).2) t

/-- The item stored for a question id, if any. -/
def ProgressTree.itemOf (t : ProgressTree) (q : String) : Option Item :=
  (t.nodeOf q).lookup q

theorem empty_nodeOf (q : String) : ProgressTree.empty.nodeOf q = [] := by
  have h1 : ProgressTree.empty.tree = { paper1 := [], paper2 := [] } := rfl
  unfold ProgressTree.nodeOf
  rw [h1]
  unfold TreeData.topicsOf
  split <;> simp [List.lookup]

theorem empty_has (q : String) : ProgressTree.empty.has q = false := by
  rw [has_eq_nodeOf, empty_nodeOf]
  simp [List.lookup]

theorem mergeItem_completedAt (e : Item) (meta : Meta) :
    (mergeItem e meta).completedAt = meta.completedAt.getD e.completedAt := by
  unfold mergeItem
  rcases meta.completedAt with _ | c <;>
    by_cases h₁ : meta.timeTakenSeconds.isSome <;>
    by_cases h₂ : meta.notes ≠ "" <;>
    simp [h₁, h₂]

theorem applyOps_version (ops : List (Int × String × Meta)) (t : ProgressTree) :
    (applyOps ops t).version = t.version := by
  induction ops generalizing t with
  | nil => rfl
  | cons op rest ih =>
      unfold applyOps
      rw [List.foldl_cons]
      exact (ih _).trans (addAttempt_version _ _ _ _)

/-! ## Claim theorems: progress tree -/

/-- The conclusion of claim C2, as a predicate over the inputs: the first
`addAttempt` on an unseen truthy id returns `true` and bumps `totals.all`,
the derived paper total and the derived topic count by exactly one; the
second call with the same id returns `false`, leaves every total unchanged
and changes no `has` result. -/
def AddAttemptIdempotent (t : ProgressTree) (now₁ now₂ : Int) (q : String)
    (m₁ m₂ : Meta) : Prop :=
  (t.addAttempt now₁ q m₁).1 = true
  ∧ ((t.addAttempt now₁ q m₁).2).totals.all = t.totals.all + 1
  ∧ ((t.addAttempt now₁ q m₁).2).totals.paper1
      = t.totals.paper1
        + (if classifyPaper (normalizeTopicFromQuestionId q) = "paper1" then 1 else 0)
  ∧ ((t.addAttempt now₁ q m₁).2).totals.paper2
      = t.totals.paper2
        + (if classifyPaper (normalizeTopicFromQuestionId q) = "paper1" then 0 else 1)
  ∧ ((t.addAttempt now₁ q m₁).2).topicCount (normalizeTopicFromQuestionId q)
      = t.topicCount (normalizeTopicFromQuestionId q) + 1
  ∧ (((t.addAttempt now₁ q m₁).2).addAttempt now₂ q m₂).1 = false
  ∧ ((((t.addAttempt now₁ q m₁).2).addAttempt now₂ q m₂).2).totals
      = ((t.addAttempt now₁ q m₁).2).totals
  ∧ ∀ x, ((((t.addAttempt now₁ q m₁).2).addAttempt now₂ q m₂).2).has x
      = ((t.addAttempt now₁ q m₁).2).has x

/-- C2: `addAttempt` is idempotent with respect to totals: on a tree not
containing a truthy id `q`, the first call returns `true` and increments
`totals.all`, the derived paper total and the topic count by exactly one
each; a second call with the same id returns `false`, leaves all totals
unchanged and updates only the stored metadata (no `has` result changes). -/
theorem claim_C2 (t : ProgressTree) (now₁ now₂ : Int) (q : String)
    (m₁ m₂ : Meta) (hq : q ≠ "") (h : t.has q = false) :
    AddAttemptIdempotent t now₁ now₂ q m₁ m₂ := by
  have hfirst := addAttempt_of_not_has t now₁ q m₁ hq h
  have h2 : (t.addAttempt now₁ q m₁).2 = { t with
      tree := t.tree.setTopics (classifyPaper (normalizeTopicFromQuestionId q))
        (alSet (normalizeTopicFromQuestionId q)
          (alSet q (newItem now₁ m₁) (t.nodeOf q))
          (t.tree.topicsOf (classifyPaper (normalizeTopicFromQuestionId q)))),
      totals := t.totals.bumpFor (classifyPaper (normalizeTopicFromQuestionId q))
        (normalizeTopicFromQuestionId q) } := by
    rw [hfirst]
  have hhas₁ : ((t.addAttempt now₁ q m₁).2).has q = true := by
    rw [has_addAttempt t now₁ q m₁ q hq]
    simp
  obtain ⟨e, he⟩ := has_lookup_some _ q hhas₁
  have hsecond := addAttempt_of_has ((t.addAttempt now₁ q m₁).2) now₂ q m₂ e he hq
  unfold AddAttemptIdempotent
  refine ⟨by rw [hfirst], ?_, ?_, ?_, ?_, by rw [hsecond], by rw [hsecond], ?_⟩
  · rw [h2]; exact bumpFor_all _ _ _
  · rw [h2]; exact bumpFor_paper1 _ _ _
  · rw [h2]; exact bumpFor_paper2 _ _ _
  · unfold ProgressTree.topicCount
    rw [h2]
    have hb := bumpFor_topics t.totals
      (classifyPaper (normalizeTopicFromQuestionId q))
      (normalizeTopicFromQuestionId q) (normalizeTopicFromQuestionId q)
    simpa using hb
  · intro x
    rw [has_addAttempt _ now₂ q m₂ x hq]
    by_cases hxq : x = q
    · subst hxq; simp [hhas₁]
    · have hb : (x == q) = false := beq_eq_false_iff_ne.mpr hxq
      simp [hb]

/-- Witness for C2 at a concrete input. -/
theorem claim_C2_witness :
    ("alg-1001" ≠ "" ∧ ProgressTree.empty.has "alg-1001" = false)
    ∧ AddAttemptIdempotent ProgressTree.empty 5 9 "alg-1001"
        { notes := "first" } { notes := "second" } :=
  ⟨⟨by decide, by decide⟩,
   claim_C2 ProgressTree.empty 5 9 "alg-1001"
     { notes := "first" } { notes := "second" } (by decide) (by decide)⟩

/-- C3 (actual behavior at the claimed inputs): the id prefix `alg` is NOT in
`PAPER1_TOPICS` (which lists only `algebra`, `algebraic`, …), so
`addAttempt("alg-1001", {})` on a fresh tree lands under `paper2.topics.alg`
(with `totals.paper1 = 0`), contradicting the claim's `paper1.topics.alg`;
`addAttempt("geo-1001", {})` lands under `paper2.topics.geo` as claimed. -/
theorem claim_C3_eval :
    PAPER1_TOPICS.contains "alg" = false
    ∧ classifyPaper (normalizeTopicFromQuestionId "alg-1001") = "paper2"
    ∧ ((ProgressTree.empty.addAttempt 0 "alg-1001" {}).2).tree.paper2.lookup "alg"
        = some [("alg-1001", { completedAt := 0, timeTakenSeconds := none, notes := "" })]
    ∧ ((ProgressTree.empty.addAttempt 0 "alg-1001" {}).2).tree.paper1 = []
    ∧ ((ProgressTree.empty.addAttempt 0 "alg-1001" {}).2).totals.paper1 = 0
    ∧ ((ProgressTree.empty.addAttempt 0 "geo-1001" {}).2).tree.paper2.lookup "geo"
        = some [("geo-1001", { completedAt := 0, timeTakenSeconds := none, notes := "" })] := by
  refine ⟨by decide, by decide, by decide, by decide, by decide, by decide⟩

/-- C6: serialization round trip.  For every tree built by `addAttempt` calls
from a fresh empty tree, `restoreProgressTree (toJSON t)` has the same totals
and the same `has` answer for every question id (in particular every added
one).  In fact the constructor keeps `tree` and `totals` verbatim. -/
theorem claim_C6 (ops : List (Int × String × Meta)) :
    (restoreProgressTree (some (applyOps ops ProgressTree.empty).toJSON)).totals
        = (applyOps ops ProgressTree.empty).totals
    ∧ ∀ q, (restoreProgressTree (some (applyOps ops ProgressTree.empty).toJSON)).has q
        = (applyOps ops ProgressTree.empty).has q :=
  ⟨rfl, fun _ => rfl⟩

/-- The duplicate-id attempt list refuting C8's `completedAt` clause. -/
def c8Attempts : List Attempt :=
  [{ questionId := "x-1", completedAt := some 100 },
   { questionId := "x-1", completedAt := some 200 }]

/-- Counterexample to C8: replaying two attempts with the same question id
through `fromAttempts`, where the first supplies `completedAt = 100` and the
later duplicate supplies `completedAt = 200`, leaves the item with
`completedAt = 200` — the later duplicate DID change `completedAt`, so the
first-seen attempt does not control it. -/
theorem claim_C8_counterexample :
    ((ProgressTree.fromAttempts 0 c8Attempts).itemOf "x-1").map Item.completedAt
        = some 200
    ∧ (200 : Int) ≠ 100 := by
  refine ⟨by decide, by decide⟩

/-- One replay step of `fromAttempts` on the item stored for a fixed question
id: the first attempt for the id creates the item through `newItem`, every
later duplicate rewrites it through `mergeItem`. -/
def itemStep (now : Int) : Option Item → Meta → Item
  | none, m => newItem now m
  | some e, m => mergeItem e m

theorem mergeItem_timeTakenSeconds (e : Item) (m : Meta) :
    (mergeItem e m).timeTakenSeconds
      = if m.timeTakenSeconds.isSome then m.timeTakenSeconds else e.timeTakenSeconds := by
  unfold mergeItem
  rcases m.completedAt with _ | c <;>
    by_cases h₁ : m.timeTakenSeconds.isSome <;>
    by_cases h₂ : m.notes ≠ "" <;>
    simp [h₁, h₂]

theorem mergeItem_notes (e : Item) (m : Meta) :
    (mergeItem e m).notes = if m.notes ≠ "" then m.notes else e.notes := by
  unfold mergeItem
  rcases m.completedAt with _ | c <;>
    by_cases h₁ : m.timeTakenSeconds.isSome <;>
    by_cases h₂ : m.notes ≠ "" <;>
    simp [h₁, h₂]

/-- Effect of one `addAttempt` call on the item stored for a truthy id `q`:
a call for `q` itself rewrites the item through `itemStep`, any other call
(including the empty-id no-op) leaves it unchanged. -/
theorem itemOf_addAttempt (t : ProgressTree) (now : Int) (x : String) (m : Meta)
    (q : String) (hq : q ≠ "") :
    ((t.addAttempt now x m).2).itemOf q
      = if q = x then some (itemStep now (t.itemOf q) m) else t.itemOf q := by
  by_cases hx : x = ""
  · have hqx : q ≠ x := by rw [hx]; exact hq
    rw [if_neg hqx, hx]
    have h : (t.addAttempt now "" m).2 = t := by simp [ProgressTree.addAttempt]
    rw [h]
  · rw [addAttempt_eq t now x m hx]
    rcases hc : (t.nodeOf x).lookup x with _ | e
    · simp only
      unfold ProgressTree.itemOf
      rw [nodeOf_lookup_after t _ (newItem now m) x q rfl]
      by_cases hqx : q = x
      · rw [if_pos hqx, if_pos hqx]
        subst hqx
        rw [hc]
        rfl
      · rw [if_neg hqx, if_neg hqx]
    · simp only
      unfold ProgressTree.itemOf
      rw [nodeOf_lookup_after t _ (mergeItem e m) x q rfl]
      by_cases hqx : q = x
      · rw [if_pos hqx, if_pos hqx]
        subst hqx
        rw [hc]
        rfl
      · rw [if_neg hqx, if_neg hqx]

/-- Replaying an arbitrary attempt list on any start tree acts on the item of
a fixed truthy id exactly as the `itemStep` fold over the sublist of attempts
carrying that id, in input order. -/
theorem itemOf_replay (now : Int) (q : String) (hq : q ≠ "") (as : List Attempt) :
    ∀ t : ProgressTree,
      (as.foldl (fun pt a => (pt.addAttempt now a.questionId a.toMeta).2) t).itemOf q
        = (as.filter (fun a => a.questionId == q)).foldl
            (fun cur a => some (itemStep now cur a.toMeta)) (t.itemOf q) := by
  induction as with
  | nil => intro t; rfl
  | cons a rest ih =>
      intro t
      by_cases hb : a.questionId = q
      · have hbeq : (a.questionId == q) = true := by simp [hb]
        have h1 : (a :: rest).filter (fun a => a.questionId == q)
            = a :: rest.filter (fun a => a.questionId == q) := by
          simp [List.filter_cons, hbeq]
        rw [List.foldl_cons, h1, List.foldl_cons, ih]
        congr 1
        rw [itemOf_addAttempt t now a.questionId a.toMeta q hq, if_pos hb.symm]
      · have hbeq : (a.questionId == q) = false := beq_eq_false_iff_ne.mpr hb
        have h1 : (a :: rest).filter (fun a => a.questionId == q)
            = rest.filter (fun a => a.questionId == q) := by
          simp [List.filter_cons, hbeq]
        rw [List.foldl_cons, h1, ih]
        congr 1
        rw [itemOf_addAttempt t now a.questionId a.toMeta q hq,
          if_neg (fun hc => hb hc.symm)]

theorem foldl_itemStep_some (now : Int) (l : List Attempt) :
    ∀ e : Item,
      l.foldl (fun cur a => some (itemStep now cur a.toMeta)) (some e)
        = some (l.foldl (fun it a => mergeItem it a.toMeta) e) := by
  induction l with
  | nil => intro e; rfl
  | cons a rest ih =>
      intro e
      rw [List.foldl_cons, List.foldl_cons]
      exact ih (mergeItem e a.toMeta)

theorem foldl_mergeItem_completedAt (l : List Attempt) :
    ∀ e : Item,
      (l.foldl (fun it a => mergeItem it a.toMeta) e).completedAt
        = l.foldl (fun c a => (a.toMeta.completedAt).getD c) e.completedAt := by
  induction l with
  | nil => intro e; rfl
  | cons a rest ih =>
      intro e
      rw [List.foldl_cons, List.foldl_cons, ih (mergeItem e a.toMeta),
        mergeItem_completedAt]

theorem findSome_append_none {α β : Type} (f : α → Option β) (l₂ : List α) :
    ∀ l₁ : List α, l₁.findSome? f = none → (l₁ ++ l₂).findSome? f = l₂.findSome? f := by
  intro l₁
  induction l₁ with
  | nil => intro _; rfl
  | cons a l ih =>
      intro h
      rcases hfa : f a with _ | b
      · have hcons : (a :: l).findSome? f = l.findSome? f := by
          simp [List.findSome?, hfa]
        rw [hcons] at h
        have hcons₂ : (a :: (l ++ l₂)).findSome? f = (l ++ l₂).findSome? f := by
          simp [List.findSome?, hfa]
        rw [List.cons_append, hcons₂]
        exact ih h
      · have hcons : (a :: l).findSome? f = some b := by
          simp [List.findSome?, hfa]
        rw [hcons] at h
        simp at h

theorem findSome_append_some {α β : Type} (f : α → Option β) (l₂ : List α) (b : β) :
    ∀ l₁ : List α, l₁.findSome? f = some b → (l₁ ++ l₂).findSome? f = some b := by
  intro l₁
  induction l₁ with
  | nil => intro h; simp [List.findSome?] at h
  | cons a l ih =>
      intro h
      rcases hfa : f a with _ | c
      · have hcons : (a :: l).findSome? f = l.findSome? f := by
          simp [List.findSome?, hfa]
        rw [hcons] at h
        have hcons₂ : (a :: (l ++ l₂)).findSome? f = (l ++ l₂).findSome? f := by
          simp [List.findSome?, hfa]
        rw [List.cons_append, hcons₂]
        exact ih h
      · have hcons : (a :: l).findSome? f = some c := by
          simp [List.findSome?, hfa]
        rw [hcons] at h
        have hcons₂ : (a :: (l ++ l₂)).findSome? f = some c := by
          simp [List.findSome?, hfa]
        rw [List.cons_append, hcons₂]
        exact h

/-- Folding `meta.completedAt || acc` left to right computes the LAST supplied
`completedAt`, with the start value as fallback. -/
theorem foldl_getD_findSome (l : List Attempt) :
    ∀ c : Int,
      l.foldl (fun c a => (a.toMeta.completedAt).getD c) c
        = (l.reverse.findSome? (fun a => a.toMeta.completedAt)).getD c := by
  induction l with
  | nil => intro c; rfl
  | cons a rest ih =>
      intro c
      rw [List.foldl_cons, ih ((a.toMeta.completedAt).getD c), List.reverse_cons]
      rcases hr : rest.reverse.findSome? (fun a => a.toMeta.completedAt) with _ | b
      · rw [findSome_append_none _ [a] rest.reverse hr, hr]
        rcases hfa : a.toMeta.completedAt with _ | v
        · simp [List.findSome?, hfa]
        · simp [List.findSome?, hfa]
      · rw [findSome_append_some _ [a] b rest.reverse hr, hr]
        rfl

/-- C8 as amended: for an arbitrary attempt list, `fromAttempts` acts on the
item of every truthy question id as the in-order fold of `itemStep` over the
attempts carrying that id — the first duplicate creates the item, every later
duplicate merges last-write-wins (each supplied `timeTakenSeconds`, truthy
`notes` and truthy `completedAt` overwrites); in particular the final
`completedAt` is the one supplied by the LAST duplicate carrying one, falling
back to the clock when no duplicate supplies one. -/
theorem claim_C8_amended (now : Int) (as : List Attempt) (q : String) (hq : q ≠ "") :
    (ProgressTree.fromAttempts now as).itemOf q
      = (as.filter (fun a => a.questionId == q)).foldl
          (fun cur a => some (itemStep now cur a.toMeta)) none
    ∧ (∀ m, itemStep now none m = newItem now m)
    ∧ (∀ e m, (itemStep now (some e) m).completedAt = (m.completedAt).getD e.completedAt
        ∧ (itemStep now (some e) m).timeTakenSeconds
            = (if m.timeTakenSeconds.isSome then m.timeTakenSeconds else e.timeTakenSeconds)
        ∧ (itemStep now (some e) m).notes = (if m.notes ≠ "" then m.notes else e.notes))
    ∧ (as.filter (fun a => a.questionId == q) ≠ [] →
        ((ProgressTree.fromAttempts now as).itemOf q).map Item.completedAt
          = some (((as.filter (fun a => a.questionId == q)).reverse.findSome?
              (fun a => a.toMeta.completedAt)).getD now)) := by
  have hmain : (ProgressTree.fromAttempts now as).itemOf q
      = (as.filter (fun a => a.questionId == q)).foldl
          (fun cur a => some (itemStep now cur a.toMeta)) none := by
    unfold ProgressTree.fromAttempts
    rw [itemOf_replay now q hq as ProgressTree.empty]
    have h0 : ProgressTree.empty.itemOf q = none := by
      unfold ProgressTree.itemOf
      rw [empty_nodeOf]
      rfl
    rw [h0]
  refine ⟨hmain, fun m => rfl,
    fun e m => ⟨mergeItem_completedAt e m, mergeItem_timeTakenSeconds e m,
      mergeItem_notes e m⟩, ?_⟩
  intro hne
  rw [hmain]
  rcases hd : as.filter (fun a => a.questionId == q) with _ | ⟨d, ds⟩
  · exact absurd hd hne
  · rw [hd, List.foldl_cons]
    rw [show itemStep now none d.toMeta = newItem now d.toMeta from rfl]
    rw [foldl_itemStep_some now ds (newItem now d.toMeta)]
    show some ((ds.foldl (fun it a => mergeItem it a.toMeta) (newItem now d.toMeta)).completedAt)
      = some (((d :: ds).reverse.findSome? (fun a => a.toMeta.completedAt)).getD now)
    rw [foldl_mergeItem_completedAt ds (newItem now d.toMeta)]
    have h2 : (newItem now d.toMeta).completedAt = (d.toMeta.completedAt).getD now := rfl
    rw [h2]
    rw [show ds.foldl (fun c a => (a.toMeta.completedAt).getD c) ((d.toMeta.completedAt).getD now)
          = (d :: ds).foldl (fun c a => (a.toMeta.completedAt).getD c) now from rfl]
    rw [foldl_getD_findSome (d :: ds) now]

/-- The attempt list of C8's witness: three duplicates of `x-9` — the middle
one omitting `completedAt` — interleaved with a different id and a falsy id. -/
def c8Dups : List Attempt :=
  [{ questionId := "x-9", completedAt := some 100 },
   { questionId := "geo-2", completedAt := some 4 },
   { questionId := "x-9", notes := "mid" },
   { questionId := "", completedAt := some 9 },
   { questionId := "x-9", completedAt := some 300 }]

/-- Witness for C8's amended statement at a concrete input. -/
theorem claim_C8_amended_witness :
    ("x-9" ≠ "")
    ∧ ((ProgressTree.fromAttempts 3 c8Dups).itemOf "x-9"
        = (c8Dups.filter (fun a => a.questionId == "x-9")).foldl
            (fun cur a => some (itemStep 3 cur a.toMeta)) none
      ∧ (∀ m, itemStep 3 none m = newItem 3 m)
      ∧ (∀ e m, (itemStep 3 (some e) m).completedAt = (m.completedAt).getD e.completedAt
          ∧ (itemStep 3 (some e) m).timeTakenSeconds
              = (if m.timeTakenSeconds.isSome then m.timeTakenSeconds else e.timeTakenSeconds)
          ∧ (itemStep 3 (some e) m).notes = (if m.notes ≠ "" then m.notes else e.notes))
      ∧ (c8Dups.filter (fun a => a.questionId == "x-9") ≠ [] →
          ((ProgressTree.fromAttempts 3 c8Dups).itemOf "x-9").map Item.completedAt
            = some (((c8Dups.filter (fun a => a.questionId == "x-9")).reverse.findSome?
                (fun a => a.toMeta.completedAt)).getD 3))) :=
  ⟨by decide, claim_C8_amended 3 c8Dups "x-9" (by decide)⟩

/-! ## Lemmas about the verification-code flow

CryptoJS's passphrase-mode `AES.encrypt` salts every call, so the ciphertext
equality tests in `verifyCode`'s eligibility `find`, in `storeVerificationCode`'s
cooldown `find` and in its same-pair removal `filter` compare ciphertexts from
DIFFERENT calls: their salts differ, the tests are always false, and all three
code paths are dead.  The theorems below prove this of the model and evaluate
the concrete consequences. -/

theorem hashCode_length (code ctype : String) :
    (hashCode code ctype).length = ctype.length + code.length + 10 := by
  have h : ∀ s : String, s.length = s.data.length := fun _ => rfl
  unfold hashCode
  rw [h]
  simp [String.data_append]
  omega

theorem hashCode_length_ne_six (code ctype : String) :
    (hashCode code ctype).length ≠ 6 := by
  rw [hashCode_length]
  omega

/-- Two ciphertexts produced with different salts never compare equal,
whatever their plaintexts. -/
theorem cipher_ne_of_salt_ne {c₁ c₂ : Cipher} (h : c₁.salt ≠ c₂.salt) :
    (c₁ == c₂) = false := by
  refine beq_eq_false_iff_ne.mpr (fun hc => h ?_)
  rw [hc]

/-- An entry whose stored ciphertext carries a different salt than this call's
freshly drawn one is never eligible. -/
theorem eligible_false_of_salt_ne {salt : Nat} {email ctype : String} {now : Int}
    {vc : VerificationEntry} (h : vc.email.salt ≠ salt) :
    eligibleFor (encryptEmail salt email) ctype now vc = false := by
  unfold eligibleFor
  rw [cipher_ne_of_salt_ne (show vc.email.salt ≠ (encryptEmail salt email).salt from h)]
  simp

/-- Shared core of the uniform-failure behavior: with no eligible entry,
`verifyCode` returns `(db, false)` and writes the database back unchanged. -/
theorem verifyCode_no_eligible (db : VDb) (now : Int) (salt : Nat)
    (email code ctype : String)
    (h : ∀ vc ∈ db.verificationCodes,
      eligibleFor (encryptEmail salt email) ctype now vc = false) :
    verifyCode db now salt email code ctype = (db, false) := by
  have hnone : db.verificationCodes.find? (eligibleFor (encryptEmail salt email) ctype now)
      = none :=
    List.find?_eq_none.mpr (fun x hx => by simp [h x hx])
  simp only [verifyCode]
  rw [hnone]

/-- Dead verification: when this call's salt differs from the salt of every
stored ciphertext — which is what CryptoJS's per-call randomness yields —
`verifyCode` finds no entry and returns a plain `false` regardless of the
code, so no stored code can ever be verified. -/
theorem verifyCode_fresh_salt (db : VDb) (now : Int) (salt : Nat)
    (email code ctype : String)
    (h : ∀ vc ∈ db.verificationCodes, vc.email.salt ≠ salt) :
    verifyCode db now salt email code ctype = (db, false) :=
  verifyCode_no_eligible db now salt email code ctype
    (fun vc hvc => eligible_false_of_salt_ne (h vc hvc))

/-! ## Claim theorems: verification codes -/

/-- C9: `verifyCode` returns a plain `false` (and leaves the database
untouched) whenever no entry for the (email, type) pair is eligible — the
entry is missing, expired, or already used — exactly the value returned for a
wrong code, with nothing distinguishing the cases exposed to the caller. -/
theorem claim_C9 (db : VDb) (now : Int) (salt : Nat) (email code ctype : String)
    (h : ∀ vc ∈ db.verificationCodes,
      eligibleFor (encryptEmail salt email) ctype now vc = false) :
    verifyCode db now salt email code ctype = (db, false) :=
  verifyCode_no_eligible db now salt email code ctype h

/-- A two-entry database — one already-used entry written by a call that drew
salt 7, and one expired entry from a call that drew salt 8 — at which C9's
hypothesis holds for a verify call that draws salt 7 again. -/
def c9Db : VDb :=
  { verificationCodes :=
      [{ id := "i1", email := encryptEmail 7 "u@x.com",
         code := hashCode "111111" "email_verification",
         type := "email_verification", createdAt := 0, expiresAt := 900000,
         used := true, attempts := 2, maxAttempts := 5 },
       { id := "i2", email := encryptEmail 8 "u@x.com",
         code := hashCode "222222" "email_verification",
         type := "email_verification", createdAt := 0, expiresAt := 5,
         used := false, attempts := 0, maxAttempts := 5 }] }

/-- Witness for C9 at a concrete input (a used entry and an expired entry,
probed with the first entry's correct raw code and even its very salt, so the
failure is due to the used/expired status, not to salt mismatch). -/
theorem claim_C9_witness :
    (∀ vc ∈ c9Db.verificationCodes,
      eligibleFor (encryptEmail 7 "u@x.com") "email_verification" 10000 vc = false)
    ∧ verifyCode c9Db 10000 7 "u@x.com" "111111" "email_verification" = (c9Db, false) :=
  ⟨by decide,
   claim_C9 c9Db 10000 7 "u@x.com" "111111" "email_verification" (by decide)⟩

/-- The issuing call of the C4 lockout scenario: salt 1 is the salt CryptoJS
drew for this call's `encryptEmail`, raw code `123456`. -/
def c4Store : StoreResult :=
  storeVerificationCode (VDb.mk []) 0 "id1" 1 "u@x.com" "123456" "email_verification"

/-- Five consecutive wrong-code `verifyCode` calls `(now, salt, code)`, each
with the fresh salt its own `encryptEmail` call drew. -/
def c4Calls : List (Int × Nat × String) :=
  [(1, 2, "000000"), (2, 3, "000000"), (3, 4, "000000"),
   (4, 5, "000000"), (5, 6, "000000")]

/-- A run of consecutive `verifyCode` calls `(time, salt, code)` for a fixed
email and purpose, threading the database through. -/
def verifySequence (db : VDb) (email ctype : String)
    (calls : List (Int × Nat × String)) : VDb :=
  calls.foldl (fun d a => (verifyCode d a.1 a.2.1 email a.2.2 ctype).1) db

/-- C4 evaluated against the program: issue a code for a pair (`maxAttempts`
is stored as 5), then make five consecutive `verifyCode` calls with a wrong
code, each with its own fresh salt.  Because every call's freshly salted
ciphertext differs from the stored one, the eligibility `find` matches
nothing: the database is written back VERBATIM after all five calls — the
entry's `attempts` stays 0 and `used` stays `false`, so the claimed lockout
transition never happens — and the subsequent call with the CORRECT raw code
also returns `false`, but only because verification as a whole is
unreachable, not because the entry was locked. -/
theorem claim_C4_eval :
    c4Store.raw = "123456"
    ∧ c4Store.entry.maxAttempts = 5
    ∧ verifySequence c4Store.db "u@x.com" "email_verification" c4Calls = c4Store.db
    ∧ (∀ vc ∈ (verifySequence c4Store.db "u@x.com" "email_verification" c4Calls).verificationCodes,
        vc.attempts = 0 ∧ vc.used = false)
    ∧ verifyCode c4Store.db 6 7 "u@x.com" "123456" "email_verification"
        = (c4Store.db, false) := by
  refine ⟨by decide, by decide, by decide, by decide, by decide⟩

/-- First issue of the C5 cooldown scenario (salt 1, raw code `111111`). -/
def c5Store1 : StoreResult :=
  storeVerificationCode (VDb.mk []) 0 "id1" 1 "a@b.com" "111111" "email_verification"

/-- Reissue for the same pair one second later — well inside the 90 s cooldown
window of the unexpired, unused first entry — with this call's fresh salt 2
and a new caller code `222222`. -/
def c5Store2 : StoreResult :=
  storeVerificationCode c5Store1.db 1000 "id2" 2 "a@b.com" "222222" "email_verification"

/-- C5 evaluated against the program: although the first entry is for the very
same (email, type) pair, unused, unexpired and created 1 s ago — every
condition of the claimed cooldown reuse — the reissue's cooldown `find`
compares the stored ciphertext against this call's differently-salted one and
matches nothing, so the reissue returns the NEW raw code `222222`, mints a
fresh entry with a REFRESHED expiry (`1000 + 15 min`), and — since the
same-pair removal `filter` misses for the same reason — even leaves the old
entry in place alongside the new one. -/
theorem claim_C5_eval :
    c5Store1.raw = "111111"
    ∧ c5Store1.entry.used = false
    ∧ ((1000 : Int) < c5Store1.entry.expiresAt)
    ∧ ((1000 : Int) - c5Store1.entry.createdAt < CODE_COOLDOWN_SECONDS * 1000)
    ∧ c5Store1.entry.email.plaintext = (encryptEmail 2 "a@b.com").plaintext
    ∧ c5Store1.entry.type = "email_verification"
    ∧ ((c5Store1.db.verificationCodes.filter
          (fun vc => decide ((1000 : Int) < vc.expiresAt))).find? (fun vc =>
        vc.email == encryptEmail 2 "a@b.com" && vc.type == "email_verification"
          && !vc.used
          && decide ((1000 : Int) - vc.createdAt < CODE_COOLDOWN_SECONDS * 1000)) = none)
    ∧ c5Store2.raw = "222222"
    ∧ "222222" ≠ "111111"
    ∧ c5Store2.entry.expiresAt = 1000 + CODE_EXPIRY_MINUTES * 60 * 1000
    ∧ c5Store2.db.verificationCodes = [c5Store1.entry, c5Store2.entry] := by
  refine ⟨by decide, by decide, by decide, by decide, by decide, by decide, by decide,
    by decide, by decide, by decide, by decide⟩

/-- First issue of the C10 accumulation scenario (salt 3). -/
def c10Store1 : StoreResult :=
  storeVerificationCode (VDb.mk []) 0 "idA" 3 "c@d.com" "111111" "password_reset"

/-- Reissue for the same pair one minute later with this call's fresh salt 4. -/
def c10Store2 : StoreResult :=
  storeVerificationCode c10Store1.db 60000 "idB" 4 "c@d.com" "222222" "password_reset"

/-- C10 evaluated against the program: the fresh entry written by a reissue
does start with `attempts = 0` and `used = false`, but the same-pair removal
`filter` compares the old entry's ciphertext against this call's
differently-salted one and removes nothing, so after the reissue TWO entries
for the (email, type) pair — same lowercased plaintext email, same type —
coexist in the database: "exactly one entry per pair" is false of the
program. -/
theorem claim_C10_eval :
    c10Store2.entry.attempts = 0
    ∧ c10Store2.entry.used = false
    ∧ c10Store2.db.verificationCodes = [c10Store1.entry, c10Store2.entry]
    ∧ c10Store1.entry.email.plaintext = jsToLowerCase "c@d.com"
    ∧ c10Store2.entry.email.plaintext = jsToLowerCase "c@d.com"
    ∧ c10Store1.entry.type = "password_reset"
    ∧ (c10Store2.db.verificationCodes.filter
        (fun vc => vc.email.plaintext == jsToLowerCase "c@d.com"
          && vc.type == "password_reset")).length = 2 := by
  refine ⟨by decide, by decide, by decide, by decide, by decide, by decide, by decide⟩

/-! ## Well-formedness invariant of reachable trees -/

/-- Every leaf of a paper's topics map sits under its canonical topic key and
classifies to that paper, with a truthy question id. -/
def canonicalTopics (paper : String) (m : TopicsMap) : Prop :=
  ∀ p ∈ m, ∀ qi ∈ p.2,
    qi.1 ≠ "" ∧ normalizeTopicFromQuestionId qi.1 = p.1 ∧ classifyPaper p.1 = paper

/-- Topic keys are distinct, and so are the item keys of every node. -/
def keysNodup (m : TopicsMap) : Prop :=
  (m.map Prod.fst).Nodup ∧ ∀ p ∈ m, (p.2.map Prod.fst).Nodup

/-- Invariant of every tree reachable from empty through `addAttempt`:
items are canonically placed, keys are distinct, and the cached totals agree
with the actual leaf counts. -/
structure WF (t : ProgressTree) : Prop where
  canon1 : canonicalTopics "paper1" t.tree.paper1
  canon2 : canonicalTopics "paper2" t.tree.paper2
  nodup1 : keysNodup t.tree.paper1
  nodup2 : keysNodup t.tree.paper2
  tot_all : t.totals.all = sumLens t.tree.paper1 + sumLens t.tree.paper2
  tot_p1 : t.totals.paper1 = sumLens t.tree.paper1
  tot_p2 : t.totals.paper2 = sumLens t.tree.paper2
  tot_topics : ∀ s, (t.totals.topics.lookup s).getD 0
      = countTopic t.tree.paper1 s + countTopic t.tree.paper2 s

theorem lookup_mem {α : Type} {k : String} {v : α} {l : List (String × α)} :
    l.lookup k = some v → (k, v) ∈ l := by
  induction l with
  | nil => intro h; simp [List.lookup] at h
  | cons hd t ih =>
      intro h
      obtain ⟨k₀, v₀⟩ := hd
      by_cases hk : k = k₀
      · subst hk
        simp [List.lookup] at h
        subst h
        exact List.mem_cons_self _ _
      · have hb : (k == k₀) = false := beq_eq_false_iff_ne.mpr hk
        simp only [List.lookup, hb] at h
        exact List.mem_cons_of_mem _ (ih h)

theorem canonicalTopics_update (paper q : String) (item : Item) (m : TopicsMap)
    (hm : canonicalTopics paper m) (hq : q ≠ "")
    (hp : classifyPaper (normalizeTopicFromQuestionId q) = paper) :
    canonicalTopics paper
      (alSet (normalizeTopicFromQuestionId q)
        (alSet q item ((m.lookup (normalizeTopicFromQuestionId q)).getD [])) m) := by
  intro p hpmem qi hqi
  rcases mem_alSet hpmem with hpe | hpm
  · subst hpe
    rcases mem_alSet hqi with hqe | hqm
    · subst hqe
      exact ⟨hq, rfl, hp⟩
    · rcases hl : m.lookup (normalizeTopicFromQuestionId q) with _ | node₀
      · rw [hl] at hqm; simp at hqm
      · rw [hl] at hqm
        simp only [Option.getD_some] at hqm
        have hmem₀ := lookup_mem hl
        exact hm _ hmem₀ qi hqm
  · exact hm p hpm qi hqi

theorem nodup_append_singleton {α : Type} {l : List α} {a : α}
    (hl : l.Nodup) (ha : a ∉ l) : (l ++ [a]).Nodup := by
  refine List.Nodup.append hl (List.nodup_singleton a) ?_
  intro x hx hy
  rw [List.mem_singleton.mp hy] at hx
  exact ha hx

theorem keysNodup_update (q T : String) (item : Item) (m : TopicsMap)
    (hm : keysNodup m) :
    keysNodup (alSet T (alSet q item ((m.lookup T).getD [])) m) := by
  constructor
  · rcases hl : (m.lookup T) with _ | node₀
    · rw [map_fst_alSet_of_none _ hl]
      refine nodup_append_singleton hm.1 ?_
      rw [← lookup_isSome_iff_mem_keys, hl]
      simp
    · rw [map_fst_alSet_of_isSome _ (by rw [hl]; rfl)]
      exact hm.1
  · intro p hp
    rcases mem_alSet hp with hpe | hpm
    · subst hpe
      have hn₀ : (((m.lookup T).getD []).map Prod.fst).Nodup := by
        rcases hl : (m.lookup T) with _ | node₀
        · simp
        · simpa using hm.2 _ (lookup_mem hl)
      rcases hql : ((m.lookup T).getD []).lookup q with _ | it₀
      · simp only
        rw [map_fst_alSet_of_none _ hql]
        refine nodup_append_singleton hn₀ ?_
        rw [← lookup_isSome_iff_mem_keys, hql]
        simp
      · simp only
        rw [map_fst_alSet_of_isSome _ (by rw [hql]; rfl)]
        exact hn₀
    · exact hm.2 p hpm

theorem countTopic_alSet (m : TopicsMap) (T s : String) (node : TopicNode) :
    countTopic (alSet T node m) s
      = if s = T then node.length else countTopic m s := by
  unfold countTopic
  by_cases hs : s = T
  · subst hs
    rw [lookup_alSet_self, if_pos rfl]
    rfl
  · rw [lookup_alSet_ne _ _ hs, if_neg hs]

theorem WF_empty : WF ProgressTree.empty := by
  refine ⟨?_, ?_, ?_, ?_, rfl, rfl, rfl, ?_⟩ <;>
    simp [canonicalTopics, keysNodup, countTopic, sumLens, List.lookup,
      ProgressTree.empty, ProgressTree.ofData]

theorem tree_after_update_p1 (t : ProgressTree) (q : String) (item : Item)
    (hP : classifyPaper (normalizeTopicFromQuestionId q) = "paper1") :
    (t.tree.setTopics (classifyPaper (normalizeTopicFromQuestionId q))
      (alSet (normalizeTopicFromQuestionId q) (alSet q item (t.nodeOf q))
        (t.tree.topicsOf (classifyPaper (normalizeTopicFromQuestionId q)))))
    = { paper1 := alSet (normalizeTopicFromQuestionId q) (alSet q item
          ((t.tree.paper1.lookup (normalizeTopicFromQuestionId q)).getD []))
          t.tree.paper1,
        paper2 := t.tree.paper2 } := by
  have hnode : t.nodeOf q
      = ((t.tree.paper1.lookup (normalizeTopicFromQuestionId q)).getD []) := by
    unfold ProgressTree.nodeOf
    rw [hP]
    simp [TreeData.topicsOf]
  rw [hP, hnode]
  simp [TreeData.setTopics, TreeData.topicsOf]

theorem tree_after_update_p2 (t : ProgressTree) (q : String) (item : Item)
    (hP : classifyPaper (normalizeTopicFromQuestionId q) = "paper2") :
    (t.tree.setTopics (classifyPaper (normalizeTopicFromQuestionId q))
      (alSet (normalizeTopicFromQuestionId q) (alSet q item (t.nodeOf q))
        (t.tree.topicsOf (classifyPaper (normalizeTopicFromQuestionId q)))))
    = { paper1 := t.tree.paper1,
        paper2 := alSet (normalizeTopicFromQuestionId q) (alSet q item
          ((t.tree.paper2.lookup (normalizeTopicFromQuestionId q)).getD []))
          t.tree.paper2 } := by
  have hnode : t.nodeOf q
      = ((t.tree.paper2.lookup (normalizeTopicFromQuestionId q)).getD []) := by
    unfold ProgressTree.nodeOf
    rw [hP]
    simp [TreeData.topicsOf]
  rw [hP, hnode]
  simp [TreeData.setTopics, TreeData.topicsOf]

theorem WF_update_p1 (t : ProgressTree) (q : String) (item : Item) (tot' : Totals)
    (δ : Nat) (hq : q ≠ "")
    (hP : classifyPaper (normalizeTopicFromQuestionId q) = "paper1")
    (h : WF t)
    (hδ : (alSet q item ((t.tree.paper1.lookup (normalizeTopicFromQuestionId q)).getD [])).length
        = ((t.tree.paper1.lookup (normalizeTopicFromQuestionId q)).getD []).length + δ)
    (hall : tot'.all = t.totals.all + δ)
    (hp1 : tot'.paper1 = t.totals.paper1 + δ)
    (hp2 : tot'.paper2 = t.totals.paper2)
    (htop : ∀ s, (tot'.topics.lookup s).getD 0
        = (t.totals.topics.lookup s).getD 0
          + (if s = normalizeTopicFromQuestionId q then δ else 0)) :
    WF { t with
        tree := { paper1 :=
                    alSet (normalizeTopicFromQuestionId q)
                      (alSet q item
                        ((t.tree.paper1.lookup (normalizeTopicFromQuestionId q)).getD []))
                      t.tree.paper1,
                  paper2 := t.tree.paper2 },
        totals := tot' } := by
  have hsum : sumLens (alSet (normalizeTopicFromQuestionId q)
      (alSet q item ((t.tree.paper1.lookup (normalizeTopicFromQuestionId q)).getD []))
      t.tree.paper1) = sumLens t.tree.paper1 + δ := by
    have hs := sumLens_alSet (normalizeTopicFromQuestionId q)
      (alSet q item ((t.tree.paper1.lookup (normalizeTopicFromQuestionId q)).getD []))
      t.tree.paper1
    omega
  refine ⟨?_, h.canon2, ?_, h.nodup2, ?_, ?_, ?_, ?_⟩
  · exact canonicalTopics_update "paper1" q item t.tree.paper1 h.canon1 hq hP
  · exact keysNodup_update q (normalizeTopicFromQuestionId q) item t.tree.paper1 h.nodup1
  · show tot'.all
      = sumLens (alSet (normalizeTopicFromQuestionId q)
          (alSet q item ((t.tree.paper1.lookup (normalizeTopicFromQuestionId q)).getD []))
          t.tree.paper1)
        + sumLens t.tree.paper2
    rw [hall, h.tot_all, hsum]
    omega
  · show tot'.paper1
      = sumLens (alSet (normalizeTopicFromQuestionId q)
          (alSet q item ((t.tree.paper1.lookup (normalizeTopicFromQuestionId q)).getD []))
          t.tree.paper1)
    rw [hp1, h.tot_p1, hsum]
  · show tot'.paper2 = sumLens t.tree.paper2
    rw [hp2, h.tot_p2]
  · intro s
    show (tot'.topics.lookup s).getD 0
      = countTopic (alSet (normalizeTopicFromQuestionId q)
          (alSet q item ((t.tree.paper1.lookup (normalizeTopicFromQuestionId q)).getD []))
          t.tree.paper1) s
        + countTopic t.tree.paper2 s
    rw [htop s, h.tot_topics s, countTopic_alSet]
    by_cases hs : s = normalizeTopicFromQuestionId q
    · subst hs
      rw [if_pos rfl, if_pos rfl]
      unfold countTopic
      omega
    · rw [if_neg hs, if_neg hs]
      omega

theorem WF_update_p2 (t : ProgressTree) (q : String) (item : Item) (tot' : Totals)
    (δ : Nat) (hq : q ≠ "")
    (hP : classifyPaper (normalizeTopicFromQuestionId q) = "paper2")
    (h : WF t)
    (hδ : (alSet q item ((t.tree.paper2.lookup (normalizeTopicFromQuestionId q)).getD [])).length
        = ((t.tree.paper2.lookup (normalizeTopicFromQuestionId q)).getD []).length + δ)
    (hall : tot'.all = t.totals.all + δ)
    (hp1 : tot'.paper1 = t.totals.paper1)
    (hp2 : tot'.paper2 = t.totals.paper2 + δ)
    (htop : ∀ s, (tot'.topics.lookup s).getD 0
        = (t.totals.topics.lookup s).getD 0
          + (if s = normalizeTopicFromQuestionId q then δ else 0)) :
    WF { t with
        tree := { paper1 := t.tree.paper1,
                  paper2 :=
                    alSet (normalizeTopicFromQuestionId q)
                      (alSet q item
                        ((t.tree.paper2.lookup (normalizeTopicFromQuestionId q)).getD []))
                      t.tree.paper2 },
        totals := tot' } := by
  have hsum : sumLens (alSet (normalizeTopicFromQuestionId q)
      (alSet q item ((t.tree.paper2.lookup (normalizeTopicFromQuestionId q)).getD []))
      t.tree.paper2) = sumLens t.tree.paper2 + δ := by
    have hs := sumLens_alSet (normalizeTopicFromQuestionId q)
      (alSet q item ((t.tree.paper2.lookup (normalizeTopicFromQuestionId q)).getD []))
      t.tree.paper2
    omega
  refine ⟨h.canon1, ?_, h.nodup1, ?_, ?_, ?_, ?_, ?_⟩
  · exact canonicalTopics_update "paper2" q item t.tree.paper2 h.canon2 hq hP
  · exact keysNodup_update q (normalizeTopicFromQuestionId q) item t.tree.paper2 h.nodup2
  · show tot'.all
      = sumLens t.tree.paper1
        + sumLens (alSet (normalizeTopicFromQuestionId q)
            (alSet q item ((t.tree.paper2.lookup (normalizeTopicFromQuestionId q)).getD []))
            t.tree.paper2)
    rw [hall, h.tot_all, hsum]
    omega
  · show tot'.paper1 = sumLens t.tree.paper1
    rw [hp1, h.tot_p1]
  · show tot'.paper2
      = sumLens (alSet (normalizeTopicFromQuestionId q)
          (alSet q item ((t.tree.paper2.lookup (normalizeTopicFromQuestionId q)).getD []))
          t.tree.paper2)
    rw [hp2, h.tot_p2, hsum]
  · intro s
    show (tot'.topics.lookup s).getD 0
      = countTopic t.tree.paper1 s
        + countTopic (alSet (normalizeTopicFromQuestionId q)
            (alSet q item ((t.tree.paper2.lookup (normalizeTopicFromQuestionId q)).getD []))
            t.tree.paper2) s
    rw [htop s, h.tot_topics s, countTopic_alSet]
    by_cases hs : s = normalizeTopicFromQuestionId q
    · subst hs
      rw [if_pos rfl, if_pos rfl]
      unfold countTopic
      omega
    · rw [if_neg hs, if_neg hs]
      omega

theorem nodeOf_p1 (t : ProgressTree) (q : String)
    (hP : classifyPaper (normalizeTopicFromQuestionId q) = "paper1") :
    t.nodeOf q = ((t.tree.paper1.lookup (normalizeTopicFromQuestionId q)).getD []) := by
  unfold ProgressTree.nodeOf
  rw [hP]
  simp [TreeData.topicsOf]

theorem nodeOf_p2 (t : ProgressTree) (q : String)
    (hP : classifyPaper (normalizeTopicFromQuestionId q) = "paper2") :
    t.nodeOf q = ((t.tree.paper2.lookup (normalizeTopicFromQuestionId q)).getD []) := by
  unfold ProgressTree.nodeOf
  rw [hP]
  simp [TreeData.topicsOf]

theorem WF_addAttempt (t : ProgressTree) (now : Int) (q : String) (meta : Meta)
    (h : WF t) : WF ((t.addAttempt now q meta).2) := by
  by_cases hq : q = ""
  · simpa [ProgressTree.addAttempt, hq] using h
  · rw [addAttempt_eq t now q meta hq]
    rcases hcase : (t.nodeOf q).lookup q with _ | e
    · -- new branch: one fresh leaf, totals bumped
      simp only
      rcases classifyPaper_cases (normalizeTopicFromQuestionId q) with hP | hP
      · have hcase' : (((t.tree.paper1.lookup (normalizeTopicFromQuestionId q)).getD
            []).lookup q) = none := by rw [← nodeOf_p1 t q hP]; exact hcase
        rw [tree_after_update_p1 t q (newItem now meta) hP]
        refine WF_update_p1 t q (newItem now meta) _ 1 hq hP h
          (length_alSet_of_lookup_none _ hcase')
          (bumpFor_all _ _ _)
          (by rw [bumpFor_paper1, if_pos hP])
          (by rw [bumpFor_paper2, if_pos hP]; omega)
          (fun s => bumpFor_topics t.totals _ _ s)
      · have hcase' : (((t.tree.paper2.lookup (normalizeTopicFromQuestionId q)).getD
            []).lookup q) = none := by rw [← nodeOf_p2 t q hP]; exact hcase
        rw [tree_after_update_p2 t q (newItem now meta) hP]
        refine WF_update_p2 t q (newItem now meta) _ 1 hq hP h
          (length_alSet_of_lookup_none _ hcase')
          (bumpFor_all _ _ _)
          (by rw [bumpFor_paper1, if_neg (by rw [hP]; decide)]; omega)
          (by rw [bumpFor_paper2, if_neg (by rw [hP]; decide)])
          (fun s => bumpFor_topics t.totals _ _ s)
    · -- merge branch: no leaf added, totals untouched
      simp only
      rcases classifyPaper_cases (normalizeTopicFromQuestionId q) with hP | hP
      · have hcase' : (((t.tree.paper1.lookup (normalizeTopicFromQuestionId q)).getD
            []).lookup q).isSome := by rw [← nodeOf_p1 t q hP, hcase]; rfl
        rw [tree_after_update_p1 t q (mergeItem e meta) hP]
        refine WF_update_p1 t q (mergeItem e meta) t.totals 0 hq hP h
          (by rw [length_alSet_of_lookup_isSome _ hcase']; omega)
          (by omega) (by omega) rfl
          (fun s => by simp)
      · have hcase' : (((t.tree.paper2.lookup (normalizeTopicFromQuestionId q)).getD
            []).lookup q).isSome := by rw [← nodeOf_p2 t q hP, hcase]; rfl
        rw [tree_after_update_p2 t q (mergeItem e meta) hP]
        refine WF_update_p2 t q (mergeItem e meta) t.totals 0 hq hP h
          (by rw [length_alSet_of_lookup_isSome _ hcase']; omega)
          (by omega) rfl (by omega)
          (fun s => by simp)

theorem WF_applyOps (ops : List (Int × String × Meta)) (t : ProgressTree)
    (h : WF t) : WF (applyOps ops t) := by
  induction ops generalizing t with
  | nil => exact h
  | cons op rest ih =>
      unfold applyOps
      rw [List.foldl_cons]
      exact ih _ (WF_addAttempt t op.1 op.2.1 op.2.2 h)

/-- C1: for every tree obtained from a fresh empty `ProgressTree` by a finite
sequence of `addAttempt` calls, `totals.all` equals the total number of leaf
items summed across the topic maps of both papers. -/
theorem claim_C1 (ops : List (Int × String × Meta)) :
    (applyOps ops ProgressTree.empty).totals.all
      = sumLens (applyOps ops ProgressTree.empty).tree.paper1
        + sumLens (applyOps ops ProgressTree.empty).tree.paper2 :=
  (WF_applyOps ops ProgressTree.empty WF_empty).tot_all

/-! ## Replay counting (claim C7) -/

/-- Replaying attempts with distinct, truthy, unseen question ids adds one to
`totals.all` per attempt, and per-paper / per-topic counts according to the
classification of each id. -/
theorem replay_totals (now : Int) (as : List Attempt) (t : ProgressTree)
    (hnodup : (as.map (fun a => a.questionId)).Nodup)
    (hne : ∀ a ∈ as, a.questionId ≠ "")
    (hfresh : ∀ a ∈ as, t.has a.questionId = false) :
    (as.foldl (fun pt a => (pt.addAttempt now a.questionId a.toMeta).2) t).totals.all
        = t.totals.all + as.length
    ∧ (as.foldl (fun pt a => (pt.addAttempt now a.questionId a.toMeta).2) t).totals.paper1
        = t.totals.paper1
          + as.countP (fun a => classifyPaper (normalizeTopicFromQuestionId a.questionId) == "paper1")
    ∧ (as.foldl (fun pt a => (pt.addAttempt now a.questionId a.toMeta).2) t).totals.paper2
        = t.totals.paper2
          + as.countP (fun a => !(classifyPaper (normalizeTopicFromQuestionId a.questionId) == "paper1"))
    ∧ ∀ s, ((as.foldl (fun pt a => (pt.addAttempt now a.questionId a.toMeta).2) t).totals.topics.lookup s).getD 0
        = (t.totals.topics.lookup s).getD 0
          + as.countP (fun a => normalizeTopicFromQuestionId a.questionId == s) := by
  induction as generalizing t with
  | nil => exact ⟨rfl, rfl, rfl, fun s => rfl⟩
  | cons a rest ih =>
      have hq : a.questionId ≠ "" := hne a (List.mem_cons_self a rest)
      have hf : t.has a.questionId = false := hfresh a (List.mem_cons_self a rest)
      have hfirst := addAttempt_of_not_has t now a.questionId a.toMeta hq hf
      have h2 : (t.addAttempt now a.questionId a.toMeta).2 = { t with
          tree := t.tree.setTopics (classifyPaper (normalizeTopicFromQuestionId a.questionId))
            (alSet (normalizeTopicFromQuestionId a.questionId)
              (alSet a.questionId (newItem now a.toMeta) (t.nodeOf a.questionId))
              (t.tree.topicsOf (classifyPaper (normalizeTopicFromQuestionId a.questionId)))),
          totals := t.totals.bumpFor
            (classifyPaper (normalizeTopicFromQuestionId a.questionId))
            (normalizeTopicFromQuestionId a.questionId) } := by
        rw [hfirst]
      have hnodup' : (rest.map (fun a => a.questionId)).Nodup := by
        simp only [List.map_cons, List.nodup_cons] at hnodup
        exact hnodup.2
      have hdiff : ∀ b ∈ rest, b.questionId ≠ a.questionId := by
        intro b hb hcontra
        simp only [List.map_cons, List.nodup_cons] at hnodup
        exact hnodup.1 (hcontra ▸ List.mem_map_of_mem (fun x => x.questionId) hb)
      have hfresh' : ∀ b ∈ rest,
          ((t.addAttempt now a.questionId a.toMeta).2).has b.questionId = false := by
        intro b hb
        rw [has_addAttempt t now a.questionId a.toMeta b.questionId hq]
        rw [hfresh b (List.mem_cons_of_mem a hb)]
        simp [beq_eq_false_iff_ne.mpr (hdiff b hb)]
      have ihres := ih ((t.addAttempt now a.questionId a.toMeta).2) hnodup'
        (fun b hb => hne b (List.mem_cons_of_mem a hb)) hfresh'
      rw [List.foldl_cons] at *
      obtain ⟨iall, ip1, ip2, itop⟩ := ihres
      refine ⟨?_, ?_, ?_, ?_⟩
      · rw [iall, h2]
        show (t.totals.bumpFor _ _).all + rest.length = _
        rw [bumpFor_all]
        simp [List.length_cons]
        omega
      · rw [ip1, h2]
        show (t.totals.bumpFor _ _).paper1 + _ = _
        rw [bumpFor_paper1, List.countP_cons]
        by_cases hcl : classifyPaper (normalizeTopicFromQuestionId a.questionId) = "paper1"
        · rw [if_pos hcl]
          have : (classifyPaper (normalizeTopicFromQuestionId a.questionId) == "paper1") = true := by
            simp [hcl]
          rw [this]
          simp
          omega
        · rw [if_neg hcl]
          have : (classifyPaper (normalizeTopicFromQuestionId a.questionId) == "paper1") = false :=
            beq_eq_false_iff_ne.mpr hcl
          rw [this]
          simp
      · rw [ip2, h2]
        show (t.totals.bumpFor _ _).paper2 + _ = _
        rw [bumpFor_paper2, List.countP_cons]
        by_cases hcl : classifyPaper (normalizeTopicFromQuestionId a.questionId) = "paper1"
        · rw [if_pos hcl]
          have : (classifyPaper (normalizeTopicFromQuestionId a.questionId) == "paper1") = true := by
            simp [hcl]
          rw [this]
          simp
        · rw [if_neg hcl]
          have : (classifyPaper (normalizeTopicFromQuestionId a.questionId) == "paper1") = false :=
            beq_eq_false_iff_ne.mpr hcl
          rw [this]
          simp
          omega
      · intro s
        rw [itop s, h2]
        show ((t.totals.bumpFor _ _).topics.lookup s).getD 0 + _ = _
        rw [bumpFor_topics, List.countP_cons]
        by_cases hts : normalizeTopicFromQuestionId a.questionId = s
        · rw [hts, if_pos rfl]
          simp
          omega
        · rw [if_neg (fun hc => hts hc.symm)]
          have : ((normalizeTopicFromQuestionId a.questionId) == s) = false :=
            beq_eq_false_iff_ne.mpr hts
          rw [this]
          simp

/-! ## Flattening lemmas (claim C7) -/

theorem flattenTopics_cons (paper : String) (tn : String × TopicNode) (rest : TopicsMap) :
    flattenTopics paper (tn :: rest)
      = tn.2.map (fun qi =>
          ({ questionId := qi.1, completedAt := qi.2.completedAt,
             timeTakenSeconds := qi.2.timeTakenSeconds, notes := qi.2.notes,
             topic := tn.1, paper := paper } : FlatRecord))
        ++ flattenTopics paper rest := rfl

theorem countTopic_cons (k s : String) (node : TopicNode) (rest : TopicsMap) :
    countTopic ((k, node) :: rest) s
      = if s = k then node.length else countTopic rest s := by
  unfold countTopic
  by_cases h : s = k
  · subst h
    simp [List.lookup]
  · have hb : (s == k) = false := beq_eq_false_iff_ne.mpr h
    simp [List.lookup, hb, h]

theorem countTopic_eq_zero_of_not_mem {s : String} {m : TopicsMap}
    (h : s ∉ m.map Prod.fst) : countTopic m s = 0 := by
  unfold countTopic
  rcases hl : m.lookup s with _ | node
  · rfl
  · exact absurd (lookup_isSome_iff_mem_keys.mp (by rw [hl]; rfl)) h

theorem length_flattenTopics (paper : String) (m : TopicsMap) :
    (flattenTopics paper m).length = sumLens m := by
  induction m with
  | nil => rfl
  | cons tn rest ih =>
      rw [flattenTopics_cons, List.length_append, List.length_map, ih]
      unfold sumLens
      simp

theorem flatten_canonical {paper : String} {m : TopicsMap}
    (hc : canonicalTopics paper m) :
    ∀ r ∈ flattenTopics paper m,
      r.questionId ≠ ""
      ∧ classifyPaper (normalizeTopicFromQuestionId r.questionId) = paper
      ∧ normalizeTopicFromQuestionId r.questionId = r.topic := by
  intro r hr
  unfold flattenTopics at hr
  rw [List.mem_flatMap] at hr
  obtain ⟨tn, htn, hr2⟩ := hr
  rw [List.mem_map] at hr2
  obtain ⟨qi, hqi, hre⟩ := hr2
  have hcan := hc tn htn qi hqi
  subst hre
  refine ⟨hcan.1, ?_, hcan.2.1⟩
  show classifyPaper (normalizeTopicFromQuestionId qi.1) = paper
  rw [hcan.2.1, hcan.2.2]

theorem mem_flatten_qid {x paper : String} {m : TopicsMap}
    (hc : canonicalTopics paper m)
    (hx : x ∈ (flattenTopics paper m).map (fun r => r.questionId)) :
    x ≠ "" ∧ classifyPaper (normalizeTopicFromQuestionId x) = paper
    ∧ ∃ tn ∈ m, normalizeTopicFromQuestionId x = tn.1 := by
  rw [List.mem_map] at hx
  obtain ⟨r, hr, hrx⟩ := hx
  unfold flattenTopics at hr
  rw [List.mem_flatMap] at hr
  obtain ⟨tn, htn, hr2⟩ := hr
  rw [List.mem_map] at hr2
  obtain ⟨qi, hqi, hre⟩ := hr2
  have hcan := hc tn htn qi hqi
  subst hre
  subst hrx
  refine ⟨hcan.1, ?_, tn, htn, hcan.2.1⟩
  show classifyPaper (normalizeTopicFromQuestionId qi.1) = paper
  rw [hcan.2.1, hcan.2.2]

theorem countP_flattenTopics_topic (paper s : String) (m : TopicsMap)
    (hc : canonicalTopics paper m) (hn : keysNodup m) :
    (flattenTopics paper m).countP
        (fun r => normalizeTopicFromQuestionId r.questionId == s)
      = countTopic m s := by
  induction m with
  | nil => rfl
  | cons tn rest ih =>
      obtain ⟨k, node⟩ := tn
      have hcrest : canonicalTopics paper rest :=
        fun p hp => hc p (List.mem_cons_of_mem _ hp)
      have hnodup := List.nodup_cons.mp hn.1
      have hnrest : keysNodup rest :=
        ⟨hnodup.2, fun p hp => hn.2 p (List.mem_cons_of_mem _ hp)⟩
      rw [flattenTopics_cons, List.countP_append, ih hcrest hnrest,
        List.countP_map, countTopic_cons]
      have hknorm : ∀ qi ∈ node, normalizeTopicFromQuestionId qi.1 = k :=
        fun qi hqi => (hc (k, node) (List.mem_cons_self _ _) qi hqi).2.1
      by_cases hk : k = s
      · subst hk
        rw [if_pos rfl]
        have hzero : countTopic rest k = 0 :=
          countTopic_eq_zero_of_not_mem hnodup.1
        rw [hzero]
        have hall : List.countP
            ((fun r => normalizeTopicFromQuestionId r.questionId == k) ∘ (fun qi =>
              ({ questionId := qi.1, completedAt := qi.2.completedAt,
                 timeTakenSeconds := qi.2.timeTakenSeconds, notes := qi.2.notes,
                 topic := k, paper := paper } : FlatRecord))) node = node.length := by
          rw [List.countP_eq_length]
          intro qi hqi
          show (normalizeTopicFromQuestionId qi.1 == k) = true
          simp [hknorm qi hqi]
        rw [hall]
        omega
      · rw [if_neg (fun hc' => hk hc'.symm)]
        have hzero : List.countP
            ((fun r => normalizeTopicFromQuestionId r.questionId == s) ∘ (fun qi =>
              ({ questionId := qi.1, completedAt := qi.2.completedAt,
                 timeTakenSeconds := qi.2.timeTakenSeconds, notes := qi.2.notes,
                 topic := k, paper := paper } : FlatRecord))) node = 0 := by
          rw [List.countP_eq_zero]
          intro qi hqi
          show ¬(normalizeTopicFromQuestionId qi.1 == s) = true
          simp [hknorm qi hqi]
          exact hk
        rw [hzero]
        omega

theorem nodup_flatten_qids (paper : String) (m : TopicsMap)
    (hc : canonicalTopics paper m) (hn : keysNodup m) :
    ((flattenTopics paper m).map (fun r => r.questionId)).Nodup := by
  induction m with
  | nil => exact List.nodup_nil
  | cons tn rest ih =>
      obtain ⟨k, node⟩ := tn
      have hcrest : canonicalTopics paper rest :=
        fun p hp => hc p (List.mem_cons_of_mem _ hp)
      have hnodup := List.nodup_cons.mp hn.1
      have hnrest : keysNodup rest :=
        ⟨hnodup.2, fun p hp => hn.2 p (List.mem_cons_of_mem _ hp)⟩
      rw [flattenTopics_cons, List.map_append, List.map_map]
      have hcomp : ((fun r : FlatRecord => r.questionId) ∘ (fun qi =>
          ({ questionId := qi.1, completedAt := qi.2.completedAt,
             timeTakenSeconds := qi.2.timeTakenSeconds, notes := qi.2.notes,
             topic := k, paper := paper } : FlatRecord)))
          = (Prod.fst : String × Item → String) := funext fun qi => rfl
      rw [hcomp]
      refine List.Nodup.append (hn.2 (k, node) (List.mem_cons_self _ _))
        (ih hcrest hnrest) ?_
      intro x hx hy
      have hxk : normalizeTopicFromQuestionId x = k := by
        rw [List.mem_map] at hx
        obtain ⟨qi, hqi, hqx⟩ := hx
        subst hqx
        exact (hc (k, node) (List.mem_cons_self _ _) qi hqi).2.1
      obtain ⟨-, -, tn', htn', hxn⟩ := mem_flatten_qid hcrest hy
      have : k ∈ rest.map Prod.fst := by
        rw [hxk] at hxn
        rw [hxn]
        exact List.mem_map_of_mem Prod.fst htn'
      exact hnodup.1 this

/-- C7: projection round trip.  For every tree built from a fresh empty tree
by `addAttempt` calls with truthy question ids, re-ingesting
`toAttemptsArray` through `fromAttempts` reproduces the same totals: `all`,
`paper1`, `paper2`, and every per-topic count. -/
theorem claim_C7 (ops : List (Int × String × Meta)) (now : Int)
    (hops : ∀ op ∈ ops, op.2.1 ≠ "") :
    (ProgressTree.fromAttempts now
        (((applyOps ops ProgressTree.empty).toAttemptsArray).map FlatRecord.asAttempt)).totals.all
      = (applyOps ops ProgressTree.empty).totals.all
    ∧ (ProgressTree.fromAttempts now
        (((applyOps ops ProgressTree.empty).toAttemptsArray).map FlatRecord.asAttempt)).totals.paper1
      = (applyOps ops ProgressTree.empty).totals.paper1
    ∧ (ProgressTree.fromAttempts now
        (((applyOps ops ProgressTree.empty).toAttemptsArray).map FlatRecord.asAttempt)).totals.paper2
      = (applyOps ops ProgressTree.empty).totals.paper2
    ∧ ∀ s, ((ProgressTree.fromAttempts now
        (((applyOps ops ProgressTree.empty).toAttemptsArray).map FlatRecord.asAttempt)).totals.topics.lookup s).getD 0
      = (((applyOps ops ProgressTree.empty).totals.topics.lookup s)).getD 0 := by
  set t := applyOps ops ProgressTree.empty with ht
  have hWF : WF t := by rw [ht]; exact WF_applyOps ops ProgressTree.empty WF_empty
  have hperm : List.Perm t.toAttemptsArray
      (flattenTopics "paper1" t.tree.paper1 ++ flattenTopics "paper2" t.tree.paper2) :=
    List.mergeSort_perm _ _
  have hflat_ne : ∀ r ∈ (flattenTopics "paper1" t.tree.paper1
      ++ flattenTopics "paper2" t.tree.paper2), r.questionId ≠ "" := by
    intro r hr
    rcases List.mem_append.mp hr with h1 | h2
    · exact (flatten_canonical hWF.canon1 r h1).1
    · exact (flatten_canonical hWF.canon2 r h2).1
  have hnodupflat : (((flattenTopics "paper1" t.tree.paper1
      ++ flattenTopics "paper2" t.tree.paper2)).map (fun r => r.questionId)).Nodup := by
    rw [List.map_append]
    refine List.Nodup.append (nodup_flatten_qids _ _ hWF.canon1 hWF.nodup1)
      (nodup_flatten_qids _ _ hWF.canon2 hWF.nodup2) ?_
    intro x hx hy
    obtain ⟨-, hc1, -⟩ := mem_flatten_qid hWF.canon1 hx
    obtain ⟨-, hc2, -⟩ := mem_flatten_qid hWF.canon2 hy
    rw [hc1] at hc2
    exact paper1_ne_paper2 hc2
  have hnodup_sorted : ((t.toAttemptsArray).map (fun r => r.questionId)).Nodup :=
    ((hperm.map (fun r => r.questionId)).nodup_iff).mpr hnodupflat
  set as := (t.toAttemptsArray).map FlatRecord.asAttempt with has
  have hND : (as.map (fun a => a.questionId)).Nodup := by
    rw [has, List.map_map]
    exact hnodup_sorted
  have hNE : ∀ a ∈ as, a.questionId ≠ "" := by
    intro a ha
    rw [has, List.mem_map] at ha
    obtain ⟨r, hr, hra⟩ := ha
    subst hra
    show r.questionId ≠ ""
    exact hflat_ne r (hperm.mem_iff.mp hr)
  have hFR : ∀ a ∈ as, ProgressTree.empty.has a.questionId = false :=
    fun a _ => empty_has _
  obtain ⟨hall, hp1, hp2, htop⟩ := replay_totals now as ProgressTree.empty hND hNE hFR
  have hcnt_all : as.length = t.totals.all := by
    rw [has, List.length_map, hperm.length_eq, List.length_append,
      length_flattenTopics, length_flattenTopics, hWF.tot_all]
  have hcnt_p1 : as.countP
      (fun a => classifyPaper (normalizeTopicFromQuestionId a.questionId) == "paper1")
      = t.totals.paper1 := by
    rw [has, List.countP_map]
    show (t.toAttemptsArray).countP
        (fun r => classifyPaper (normalizeTopicFromQuestionId r.questionId) == "paper1")
      = t.totals.paper1
    rw [hperm.countP_eq, List.countP_append]
    have h1 : (flattenTopics "paper1" t.tree.paper1).countP
        (fun r => classifyPaper (normalizeTopicFromQuestionId r.questionId) == "paper1")
        = (flattenTopics "paper1" t.tree.paper1).length := by
      rw [List.countP_eq_length]
      intro r hr
      rw [(flatten_canonical hWF.canon1 r hr).2.1]
      rfl
    have h2 : (flattenTopics "paper2" t.tree.paper2).countP
        (fun r => classifyPaper (normalizeTopicFromQuestionId r.questionId) == "paper1")
        = 0 := by
      rw [List.countP_eq_zero]
      intro r hr
      rw [(flatten_canonical hWF.canon2 r hr).2.1]
      decide
    rw [h1, h2, length_flattenTopics, hWF.tot_p1]
    omega
  have hcnt_p2 : as.countP
      (fun a => !(classifyPaper (normalizeTopicFromQuestionId a.questionId) == "paper1"))
      = t.totals.paper2 := by
    rw [has, List.countP_map]
    show (t.toAttemptsArray).countP
        (fun r => !(classifyPaper (normalizeTopicFromQuestionId r.questionId) == "paper1"))
      = t.totals.paper2
    rw [hperm.countP_eq, List.countP_append]
    have h1 : (flattenTopics "paper1" t.tree.paper1).countP
        (fun r => !(classifyPaper (normalizeTopicFromQuestionId r.questionId) == "paper1"))
        = 0 := by
      rw [List.countP_eq_zero]
      intro r hr
      rw [(flatten_canonical hWF.canon1 r hr).2.1]
      decide
    have h2 : (flattenTopics "paper2" t.tree.paper2).countP
        (fun r => !(classifyPaper (normalizeTopicFromQuestionId r.questionId) == "paper1"))
        = (flattenTopics "paper2" t.tree.paper2).length := by
      rw [List.countP_eq_length]
      intro r hr
      rw [(flatten_canonical hWF.canon2 r hr).2.1]
      rfl
    rw [h1, h2, length_flattenTopics, hWF.tot_p2]
    omega
  have hcnt_top : ∀ s, as.countP
      (fun a => normalizeTopicFromQuestionId a.questionId == s)
      = (t.totals.topics.lookup s).getD 0 := by
    intro s
    rw [has, List.countP_map]
    show (t.toAttemptsArray).countP
        (fun r => normalizeTopicFromQuestionId r.questionId == s)
      = (t.totals.topics.lookup s).getD 0
    rw [hperm.countP_eq, List.countP_append,
      countP_flattenTopics_topic _ _ _ hWF.canon1 hWF.nodup1,
      countP_flattenTopics_topic _ _ _ hWF.canon2 hWF.nodup2,
      hWF.tot_topics s]
  refine ⟨?_, ?_, ?_, ?_⟩
  · show (as.foldl (fun pt a => (pt.addAttempt now a.questionId a.toMeta).2)
        ProgressTree.empty).totals.all = t.totals.all
    rw [hall, hcnt_all]
    show 0 + t.totals.all = t.totals.all
    omega
  · show (as.foldl (fun pt a => (pt.addAttempt now a.questionId a.toMeta).2)
        ProgressTree.empty).totals.paper1 = t.totals.paper1
    rw [hp1, hcnt_p1]
    show 0 + t.totals.paper1 = t.totals.paper1
    omega
  · show (as.foldl (fun pt a => (pt.addAttempt now a.questionId a.toMeta).2)
        ProgressTree.empty).totals.paper2 = t.totals.paper2
    rw [hp2, hcnt_p2]
    show 0 + t.totals.paper2 = t.totals.paper2
    omega
  · intro s
    show ((as.foldl (fun pt a => (pt.addAttempt now a.questionId a.toMeta).2)
        ProgressTree.empty).totals.topics.lookup s).getD 0
      = (t.totals.topics.lookup s).getD 0
    rw [htop s, hcnt_top s]
    show 0 + (t.totals.topics.lookup s).getD 0 = (t.totals.topics.lookup s).getD 0
    omega

/-- Witness for C7 at a concrete input: two truthy-id attempts. -/
theorem claim_C7_witness :
    (∀ op ∈ ([(0, "alg-1001", {}), (1, "geo-7", { notes := "n" })]
        : List (Int × String × Meta)), op.2.1 ≠ "")
    ∧ ((ProgressTree.fromAttempts 5
        (((applyOps [(0, "alg-1001", {}), (1, "geo-7", { notes := "n" })]
            ProgressTree.empty).toAttemptsArray).map FlatRecord.asAttempt)).totals.all
      = (applyOps [(0, "alg-1001", {}), (1, "geo-7", { notes := "n" })]
          ProgressTree.empty).totals.all
    ∧ (ProgressTree.fromAttempts 5
        (((applyOps [(0, "alg-1001", {}), (1, "geo-7", { notes := "n" })]
            ProgressTree.empty).toAttemptsArray).map FlatRecord.asAttempt)).totals.paper1
      = (applyOps [(0, "alg-1001", {}), (1, "geo-7", { notes := "n" })]
          ProgressTree.empty).totals.paper1
    ∧ (ProgressTree.fromAttempts 5
        (((applyOps [(0, "alg-1001", {}), (1, "geo-7", { notes := "n" })]
            ProgressTree.empty).toAttemptsArray).map FlatRecord.asAttempt)).totals.paper2
      = (applyOps [(0, "alg-1001", {}), (1, "geo-7", { notes := "n" })]
          ProgressTree.empty).totals.paper2
    ∧ ∀ s, ((ProgressTree.fromAttempts 5
        (((applyOps [(0, "alg-1001", {}), (1, "geo-7", { notes := "n" })]
            ProgressTree.empty).toAttemptsArray).map FlatRecord.asAttempt)).totals.topics.lookup s).getD 0
      = (((applyOps [(0, "alg-1001", {}), (1, "geo-7", { notes := "n" })]
          ProgressTree.empty).totals.topics.lookup s)).getD 0) :=
  ⟨by decide,
   claim_C7 [(0, "alg-1001", {}), (1, "geo-7", { notes := "n" })] 5 (by decide)⟩

end MockMaster
